import Mathlib

/-!
Verification of `read.py` from USEPA/opp-efed-inputs.

Shallow embedding.  A pandas dataframe is modelled as a list of column
names together with a list of rows, each row a positional list of cells.
Numeric cells carry exact integers or rationals; a missing value (NaN /
None) is the cell `Val.na`.  Fallible pandas operations return
`Except PyErr`.  File reads are abstracted: an environment record
supplies, for each path the code reads, the already-parsed table, since
the files are external inputs of the program.  `parameters.py` and
`paths.py` (imported by `read.py` but not part of the analysed source)
are likewise abstracted into environment fields (`fields.fetch` results,
`states_nhd`, path templates are irrelevant to the data transformations).
-/

namespace ReadPy

/-- Python exception values raised by the modelled code. -/
inductive PyErr where
  | keyError
  | valueError
  | attributeError
  | typeError
  | nameError (missing : String)
  | futureWarning (msg : String)
  | keyboardInterrupt
  | systemExit
deriving DecidableEq, Repr

/-- Whether the raised object is an instance of `Exception`.
`KeyboardInterrupt` and `SystemExit` derive only from `BaseException`,
so an `except Exception` clause does not catch them. -/
def PyErr.isException : PyErr → Bool
  | .keyboardInterrupt => false
  | .systemExit => false
  | _ => true

/-- A dataframe cell. -/
inductive Val where
  | na
  | int (z : ℤ)
  | rat (q : ℚ)
  | str (s : String)
  | bool (b : Bool)
deriving DecidableEq, Repr

/-- A dataframe: column names plus rows of cells, positionally aligned
with the column list. -/
structure DF where
  cols : List String
  rows : List (List Val)
deriving DecidableEq, Repr

/-- Cell of a row at a positional index (reading past the end of a
ragged row yields a missing value; the rows we build are rectangular). -/
def cell (r : List Val) (i : ℕ) : Val :=
  (r.get? i).getD .na

/-- Index of the first occurrence of a column name, as pandas column
lookup does. -/
def colIdx : List String → String → Option ℕ
  | [], _ => none
  | c :: cs, t => if c = t then some 0 else (colIdx cs t).map (· + 1)

/-- Cell of a row under a column name. -/
def cellByName (cols : List String) (r : List Val) (c : String) : Val :=
  match colIdx cols c with
  | some i => cell r i
  | none => .na

/-- Cell of a table at a row index and a column name. -/
def cellAt (t : DF) (i : ℕ) (c : String) : Val :=
  cellByName t.cols (t.rows.getD i []) c

instance {ε α : Type} [DecidableEq ε] [DecidableEq α] : DecidableEq (Except ε α) := fun a b =>
  match a, b with
  | .ok x, .ok y =>
    if h : x = y then isTrue (by rw [h]) else isFalse (fun hh => h (Except.ok.inj hh))
  | .error x, .error y =>
    if h : x = y then isTrue (by rw [h]) else isFalse (fun hh => h (Except.error.inj hh))
  | .ok _, .error _ => isFalse (fun hh => Except.noConfusion hh)
  | .error _, .ok _ => isFalse (fun hh => Except.noConfusion hh)

/-! ### Generic dataframe operations (the pandas primitives the code uses) -/

/-- Sequence a fallible cell operation over a list, stopping at the
first raised exception, as a pandas vectorised operation does. -/
def mapE {α β : Type} (f : α → Except PyErr β) : List α → Except PyErr (List β)
  | [] => .ok []
  | a :: rest => do
    let b ← f a
    let bs ← mapE f rest
    pure (b :: bs)

/-- Column read via attribute access (`table.line_num`); a missing
column raises AttributeError. -/
def getColAttr (t : DF) (c : String) : Except PyErr (List Val) :=
  match colIdx t.cols c with
  | some i => .ok (t.rows.map (fun r => cell r i))
  | none => .error .attributeError

/-- Column read via subscript (`table[field]`); a missing column raises
KeyError. -/
def getColKey (t : DF) (c : String) : Except PyErr (List Val) :=
  match colIdx t.cols c with
  | some i => .ok (t.rows.map (fun r => cell r i))
  | none => .error .keyError

/-- Column assignment `table[c] = vals` with a list of values: replaces
the column in place when present, otherwise appends it on the right. -/
def setColList (t : DF) (c : String) (vals : List Val) : DF :=
  match colIdx t.cols c with
  | some i => { t with rows := (t.rows.zip vals).map (fun p => p.1.set i p.2) }
  | none =>
    { cols := t.cols ++ [c], rows := (t.rows.zip vals).map (fun p => p.1 ++ [p.2]) }

/-- Column assignment `table[c] = v` with a broadcast scalar. -/
def setColScalar (t : DF) (c : String) (v : Val) : DF :=
  match colIdx t.cols c with
  | some i => { t with rows := t.rows.map (fun r => r.set i v) }
  | none => { cols := t.cols ++ [c], rows := t.rows.map (fun r => r ++ [v]) }

/-- Model of `table.pop(c)`: returns the column values and the table without the
column; a missing column raises KeyError. -/
def popColE (t : DF) (c : String) : Except PyErr (List Val × DF) :=
  match colIdx t.cols c with
  | some i =>
    .ok (t.rows.map (fun r => cell r i),
      ⟨t.cols.eraseIdx i, t.rows.map (fun r => r.eraseIdx i)⟩)
  | none => .error .keyError

/-- Column projection `table[cs]`; a missing column raises KeyError. -/
def selectColsE (t : DF) (cs : List String) : Except PyErr DF :=
  if cs.all (fun c => (colIdx t.cols c).isSome) then
    .ok ⟨cs, t.rows.map (fun r => cs.map (cellByName t.cols r))⟩
  else .error .keyError

/-- Reindex a row of a table with columns `oldCols` onto `newCols`,
filling absent columns with missing values. -/
def reindexRow (oldCols newCols : List String) (r : List Val) : List Val :=
  newCols.map (cellByName oldCols r)

/-- Model of `pd.concat([a, b], axis=0)`: with identical column lists the rows
are stacked; otherwise columns are aligned on the union (order of first
appearance; pandas may additionally sort unaligned columns, which no
use in the code hits since the code only stacks identically-shaped
tables). -/
def concat2 (a b : DF) : DF :=
  if a.cols = b.cols then ⟨a.cols, a.rows ++ b.rows⟩
  else
    let newCols := a.cols ++ b.cols.filter (fun c => !(a.cols.contains c))
    ⟨newCols, a.rows.map (reindexRow a.cols newCols) ++ b.rows.map (reindexRow b.cols newCols)⟩

/-- Model of `pd.concat(tables, axis=0)` over a list; pandas raises ValueError
on an empty list of objects. -/
def concatAll : List DF → Except PyErr DF
  | [] => .error .valueError
  | t :: ts => .ok (ts.foldl concat2 t)

/-- Horizontal `pd.concat([a, b], axis=1)` of index-aligned tables. -/
def concatCols (a b : DF) : DF :=
  ⟨a.cols ++ b.cols, (a.rows.zip b.rows).map (fun p => p.1 ++ p.2)⟩

/-- Model of `table.dropna(subset=cs)`: drop the rows with a missing value in
one of the subset columns; a missing subset column raises KeyError. -/
def dropnaSubset (t : DF) (subset : List String) : Except PyErr DF :=
  if subset.all (fun c => (colIdx t.cols c).isSome) then
    .ok { t with rows :=
      t.rows.filter (fun r => subset.all (fun c => decide (cellByName t.cols r c ≠ Val.na))) }
  else .error .keyError

/-- Model of `table.melt(id_vars, value_vars, var_name, value_name)`: one output
row per (value_var, input row) pair; missing named columns raise
KeyError. -/
def melt (t : DF) (idVars valueVars : List String) (varName valName : String) :
    Except PyErr DF :=
  if (idVars ++ valueVars).all (fun c => (colIdx t.cols c).isSome) then
    .ok ⟨idVars ++ [varName, valName],
      valueVars.flatMap (fun v => t.rows.map (fun r =>
        idVars.map (cellByName t.cols r) ++ [.str v, cellByName t.cols r v]))⟩
  else .error .keyError

/-- Model of `table.rename(columns=mapping)`; the mapping is total, identity off
its domain, as a pandas rename dict behaves. -/
def renameCols (t : DF) (f : String → String) : DF :=
  { t with cols := t.cols.map f }

/-- Join type of `pd.merge`. -/
inductive MergeHow where
  | inner
  | outer
  | left
deriving DecidableEq, Repr

/-- Key tuple of a row under the join columns. -/
def keyTuple (cols : List String) (onKeys : List String) (r : List Val) : List Val :=
  onKeys.map (cellByName cols r)

/-- Model of `pd.merge(l, r, on=onKeys, how=how, suffixes=sfx)`.  Overlapping
non-key column names take the respective suffix; the right key columns
are not duplicated; unmatched rows are kept (missing-filled) according
to the join type.  Row order is a deterministic choice (pandas sorts
keys for outer joins); no theorem below depends on merge row order.
Missing key columns raise KeyError. -/
def merge (l r : DF) (onKeys : List String) (how : MergeHow) (sfx : String × String) :
    Except PyErr DF :=
  if onKeys.all (fun k => l.cols.contains k) && onKeys.all (fun k => r.cols.contains k) then
    let overlap := l.cols.filter (fun c => r.cols.contains c && !(onKeys.contains c))
    let lcols := l.cols.map (fun c => if overlap.contains c then c ++ sfx.1 else c)
    let rKeepSrc := r.cols.filter (fun c => !(onKeys.contains c))
    let rcols := rKeepSrc.map (fun c => if overlap.contains c then c ++ sfx.2 else c)
    let rProj := fun (rr : List Val) => rKeepSrc.map (cellByName r.cols rr)
    let lKey := keyTuple l.cols onKeys
    let rKey := keyTuple r.cols onKeys
    let matched := l.rows.flatMap (fun lr =>
      let ms := r.rows.filter (fun rr => decide (rKey rr = lKey lr))
      if ms.isEmpty then
        (if how = MergeHow.inner then [] else [lr ++ List.replicate rKeepSrc.length Val.na])
      else ms.map (fun rr => lr ++ rProj rr))
    let rightOnly :=
      if how = MergeHow.outer then
        (r.rows.filter (fun rr => l.rows.all (fun lr => decide (¬ lKey lr = rKey rr)))).map
          (fun rr =>
            l.cols.map (fun c => if onKeys.contains c then cellByName r.cols rr c else Val.na)
              ++ rProj rr)
      else []
    .ok ⟨lcols ++ rcols, matched ++ rightOnly⟩
  else .error .keyError

/-! ### Machine-integer coercions used by the code -/

/-- The `np.int32` wrap-around. -/
def wrapI32 (z : ℤ) : ℤ := (z + 2 ^ 31) % 2 ^ 32 - 2 ^ 31

/-- The `np.int16` wrap-around. -/
def wrapI16 (z : ℤ) : ℤ := (z + 2 ^ 15) % 2 ^ 16 - 2 ^ 15

/-- The `np.uint32` wrap-around. -/
def wrapU32 (z : ℤ) : ℤ := z % 2 ^ 32

/-- Reading a cell under `dtype=np.uint32` (missing values and
non-numeric cells are left to the claims' hypotheses). -/
def u32Cell : Val → Val
  | .int z => .int (wrapU32 z)
  | v => v

/-! ### test_path (read.py lines 23-31) -/

/-- A Python `try: body except Exception as e: handler` block.  Only
instances of `Exception` are caught; `KeyboardInterrupt`/`SystemExit`
propagate unhandled. -/
def tryExcept {β : Type} (body : Except PyErr β) (handler : PyErr → Except PyErr β) :
    Except PyErr β :=
  match body with
  | .ok v => .ok v
  | .error e => if e.isException then handler e else .error e

/-- The decorator: `wrapped` calls `f`, returns its result, and
re-raises (`raise e`) whatever `Exception` it raises. -/
def test_path {α β : Type} (f : α → Except PyErr β) : α → Except PyErr β :=
  fun a => tryExcept (f a) (fun e => .error e)

/-! ### combinations (read.py lines 34-50) -/

/-- External inputs of `combinations`: the parsed combination csv for a
(region, year) pair, before the `dtype=np.uint32` coercion. -/
structure ComboEnv where
  comboTable : String → ℤ → DF

/-- The header selected at line 45. -/
def comboHeader : List String := ["gridcode", "cdl", "weather_grid", "mukey", "area"]

/-- One iteration body of the year loop (lines 44-48):
`pd.read_csv(combo_file, dtype=np.uint32, nrows=nrows)[header]` followed
by `combos[YEAR] = np.int16(year)`. -/
def readComboYear (env : ComboEnv) (region : String) (nrows : Option ℕ) (year : ℤ) :
    Except PyErr DF := do
  let raw := env.comboTable region year
  let raw : DF :=
    { raw with rows := (match nrows with | some n => raw.rows.take n | none => raw.rows) }
  let raw : DF := { raw with rows := raw.rows.map (List.map u32Cell) }
  let combos ← selectColsE raw comboHeader
  pure (setColScalar combos "year" (.int (wrapI16 year)))

/-- The accumulator loop of lines 43-49: `all_combos` is None before
the first year and the running vertical concatenation afterwards. -/
def combinationsLoop (env : ComboEnv) (region : String) (nrows : Option ℕ) :
    List ℤ → Option DF → Except PyErr (Option DF)
  | [], acc => .ok acc
  | y :: ys, acc => do
    let combos ← readComboYear env region nrows y
    combinationsLoop env region nrows ys
      (some (match acc with | none => combos | some a => concat2 a combos))

/-- combinations (lines 34-50): returns `all_combos`, which is still
None when `years` is empty. -/
def combinations (env : ComboEnv) (region : String) (years : List ℤ) (nrows : Option ℕ) :
    Except PyErr (Option DF) :=
  combinationsLoop env region nrows years none

/-! ### gdd (read.py lines 99-108) -/

/-- Python `str.endswith`. -/
def strEndsWith (s sfx : String) : Bool := sfx.data.isSuffixOf s.data

/-- Python `str.rstrip(chars)`: remove trailing characters drawn from
the given set (not suffix removal). -/
def pyRstrip (s : String) (chars : List Char) : String :=
  ⟨(s.data.reverse.dropWhile (fun c => chars.contains c)).reverse⟩

/-- The conversion applied to a wide temperature column:
`(table.pop(col) - 32.) * (5 / 9)`, in exact arithmetic; a missing
value propagates as NaN does. -/
def fToC : Val → Val
  | .int z => .rat (((z : ℚ) - 32) * (5 / 9))
  | .rat q => .rat ((q - 32) * (5 / 9))
  | v => v

/-- External input of `gdd`: the parsed table at `gdd_input_path`. -/
structure GddEnv where
  gddTable : DF
deriving DecidableEq, Repr

/-- The dropna subset at line 107. -/
def gddSubset : List String :=
  ["emergence_gdd", "maxcover_gdd", "emergence_base_temp", "maxcover_base_temp"]

/-- Loop body of lines 102-104 for one snapshot column:
`table[col.rstrip(chars)] = (table.pop(col) - 32.) * (5 / 9)` when the
name ends in the wide-temperature suffix. -/
def gddRenameStep (t : DF) (col : String) : Except PyErr DF :=
  if strEndsWith col "temp_f" then do
    let p ← popColE t col
    pure (setColList p.2 (pyRstrip col ['_', 'f']) (p.1.map fToC))
  else pure t

/-- The column loop of lines 101-104; `table.columns.values` is a
snapshot taken before the loop mutates the table. -/
def gddRenameLoop : List String → DF → Except PyErr DF
  | [], t => .ok t
  | c :: cs, t => do
    let t2 ← gddRenameStep t c
    gddRenameLoop cs t2

/-- gdd (lines 99-108).  The `grapes` branch raises FutureWarning (the
source message spells the first word with an apostrophe, elided here)
before `gdd_input_path` is consulted. -/
def gdd (env : GddEnv) (grapes : Bool) : Except PyErr DF := do
  let table ←
    if !grapes then
      gddRenameLoop env.gddTable.cols env.gddTable
    else
      throw (PyErr.futureWarning "Havent implemented grapes yet")
  dropnaSubset table gddSubset

/-! ### crop (read.py lines 53-96) and its undefined `date_fmt` -/

/-- Global names bound at module level in read.py: the imports of lines
8-21 and the function definitions.  `date_fmt`, used at line 75, is not
among them. -/
def readModuleGlobals : List String :=
  ["os", "re", "np", "pd",
   "states_nhd", "pwc_durations",
   "condensed_soil_path", "met_attributes_path", "combo_path", "crop_dates_path",
   "crop_params_path", "gen_params_path", "irrigation_path",
   "preprocessed_path", "pwc_scenario_path", "crop_group_path", "gdd_input_path",
   "reconstituted_path",
   "report", "fields",
   "test_path", "combinations", "crop", "gdd", "met", "soils", "ssurgo",
   "pwc_infile", "pwc_outfile"]

/-- Evaluating a bare name at module scope: NameError when unbound. -/
def lookupGlobal (n : String) : Except PyErr Unit :=
  if readModuleGlobals.contains n then .ok () else .error (.nameError n)

/-- External inputs of `crop`: the five parameter tables (already
restricted to their `fields.fetch` columns by read_csv, which is the
file parse), the configured date-field list, and the day-offset
conversion `(pd.to_datetime(col, format=date_fmt) - pd.to_datetime(BASE)).dt.days`
that line 75 would apply if `date_fmt` were bound. -/
structure CropEnv where
  crop_index : DF
  crop_params : DF
  crop_dates : DF
  irrigation_data : DF
  group_params : DF
  dateFields : List String
  toDateOffset : Val → Val

/-- The date loop of lines 74-75.  Python evaluates
`crop_dates[field]` before the keyword argument `format=date_fmt`, so
the column subscript happens first, then the name lookup, which raises
NameError because `date_fmt` is unbound in the module. -/
def cropDateLoop (env : CropEnv) : List String → DF → Except PyErr DF
  | [], t => .ok t
  | f :: fs, t => do
    let vals ← getColKey t f
    let _ ← lookupGlobal "date_fmt"
    cropDateLoop env fs (setColList t f (vals.map env.toDateOffset))

/-- pandas `>` on two cells: numeric comparison, false on missing
values as NaN comparisons are. -/
def valGtCell : Val → Val → Bool
  | .int a, .int b => decide (b < a)
  | .rat a, .rat b => decide (b < a)
  | .int a, .rat b => decide (b < (a : ℚ))
  | .rat a, .int b => decide ((b : ℚ) < a)
  | _, _ => false

/-- Model of `+= 365` on a cell (a missing value stays missing). -/
def valAdd365 : Val → Val
  | .int z => .int (z + 365)
  | .rat q => .rat (q + 365)
  | v => v

/-- The `.loc` masked update of lines 77-78 on one row: add 365 to the
harvest cell exactly when the plant cell compares greater. -/
def adjRow (pidx hidx : ℕ) (r : List Val) : List Val :=
  if valGtCell (cell r pidx) (cell r hidx) then r.set hidx (valAdd365 (cell r hidx))
  else r

/-- One stage of lines 77-78:
`crop_dates.loc[crop_dates[plant] > crop_dates[harvest], harvest] += 365`. -/
def adjustStage (t : DF) (stage : String) : Except PyErr DF :=
  match colIdx t.cols ("plant_" ++ stage), colIdx t.cols ("harvest_" ++ stage) with
  | some pidx, some hidx => .ok { t with rows := t.rows.map (adjRow pidx hidx) }
  | _, _ => .error .keyError

/-- The stage list of line 77. -/
def cropStages : List String := ["begin", "end", "begin_active", "end_active"]

/-- The stage loop of lines 77-78. -/
def adjustHarvest : List String → DF → Except PyErr DF
  | [], t => .ok t
  | s :: rest, t => do
    let t2 ← adjustStage t s
    adjustHarvest rest t2

/-- Model of `group_params[group_params.region == region]` (line 89). -/
def filterColEq (t : DF) (c : String) (v : Val) : Except PyErr DF :=
  match colIdx t.cols c with
  | some i => .ok { t with rows := t.rows.filter (fun r => decide (cell r i = v)) }
  | none => .error .attributeError

/-- Model of `.fillna(0).astype(bool)` on one cell (line 94). -/
def fillnaBoolCell : Val → Val
  | .na => .bool false
  | .int z => .bool (decide (z ≠ 0))
  | .rat q => .bool (decide (q ≠ 0))
  | .str s => .bool (decide (s ≠ ""))
  | .bool b => .bool b

/-- Line 94: the two-column boolean coercion. -/
def fillnaBoolCols (t : DF) : List String → Except PyErr DF
  | [] => .ok t
  | c :: cs => do
    let vals ← getColKey t c
    fillnaBoolCols (setColList t c (vals.map fillnaBoolCell)) cs

/-- crop (lines 53-96).  `fields.refresh()` and the five read_csv
calls are the file parse, abstracted into `env`. -/
def crop (env : CropEnv) (region : String) : Except PyErr DF := do
  let crop_dates ← cropDateLoop env env.dateFields env.crop_dates
  let crop_dates ← adjustHarvest cropStages crop_dates
  let group_params ← filterColEq env.group_params "region" (.str region)
  let d1 ← merge env.crop_index env.crop_params ["cdl", "cdl_alias"] .left ("_x", "_y")
  let d2 ← merge d1 crop_dates ["cdl", "cdl_alias"] .left ("", "_burn")
  let d3 ← merge d2 env.irrigation_data ["cdl_alias", "state"] .left ("_x", "_y")
  let d4 ← merge d3 group_params ["pwc_class"] .left ("_cdl", "_gen")
  fillnaBoolCols d4 ["evergreen", "alt_date"]

/-! ### soils and ssurgo (read.py lines 122-160) -/

/-- External inputs of `soils`: the `states_nhd` dict of parameters.py
(string keys, so the `states_nhd[None]` lookup of the no-region,
no-state call misses), the condensed SSURGO table for each
(state, name) pair as parsed by `ssurgo` (read_csv restricted to the
`fields.fetch(name)` columns is the file parse), and the
`fields.convert` rename mapping (a dict acting as the identity off its
domain). -/
structure SoilsEnv where
  states_nhd : String → Option (List String)
  ssurgoTable : String → String → DF
  convert : String → String

/-- ssurgo (lines 151-160): read one condensed SSURGO table. -/
def ssurgo (env : SoilsEnv) (state name : String) : DF :=
  env.ssurgoTable state name

/-- The (table name, key field) pairs of line 137. -/
def soilsTableSpecs : List (String × String) :=
  [("muaggatt", "mukey"), ("component", "mukey"), ("chorizon", "cokey")]

/-- The inner loop of lines 137-139: `state_table` is None before the
first table and the running outer merge afterwards. -/
def soilsStateLoop (env : SoilsEnv) (state : String) :
    List (String × String) → Option DF → Except PyErr (Option DF)
  | [], acc => .ok acc
  | spec :: rest, acc => do
    let table := ssurgo env state spec.1
    let acc2 ← (match acc with
      | none => pure (some table)
      | some s => do
        let m ← merge s table [spec.2] .outer ("_x", "_y")
        pure (some m))
    soilsStateLoop env state rest acc2

/-- Lines 136-141 for one state: build the state table and tag it with
the `state` column.  (`state_table` cannot still be None after the
fixed three-element loop; assigning a column on None would raise.) -/
def soilsStateTable (env : SoilsEnv) (state : String) : Except PyErr DF := do
  let st ← soilsStateLoop env state soilsTableSpecs none
  match st with
  | some s => pure (setColScalar s "state" (.str state))
  | none => throw PyErr.typeError

/-- soils (lines 122-148). -/
def soils (env : SoilsEnv) (mode : String) (region state : Option String) :
    Except PyErr DF := do
  let region_states ← (match region, state with
    | none, some s => pure [s]
    | some r, _ => (match env.states_nhd r with
      | some l => pure l
      | none => throw PyErr.keyError)
    | none, none => throw PyErr.keyError)
  let valu_table := ssurgo env "" "valu"
  let state_tables ← mapE (soilsStateTable env) region_states
  let soil_data ← concatAll state_tables
  let soil_data ← merge soil_data valu_table ["mukey"] .inner ("_x", "_y")
  pure (renameCols soil_data env.convert)

/-! ### pwc_outfile (read.py lines 191-219) -/

/-- External inputs of `pwc_outfile`: the three `fields.fetch` lists of
parameters.py, the whitespace-delimited parse of the output file (one
cell list per line; `names=pwc_header` means no line is consumed as a
header), and the plain `pd.read_csv` result for the preprocessed
branch. -/
structure PwcEnv where
  pwc_id_fields : List String
  pwc_durations : List String
  pwc_run_id : List String
  rawRows : List (List Val)
  preTable : DF

/-- Python `str.split(sep)` with an explicit one-character separator,
built from the right (an empty string yields one empty field, as in
Python). -/
def splitAux (sep : Char) : List Char → List (List Char)
  | [] => [[]]
  | c :: rest =>
    match splitAux sep rest with
    | [] => [[c]]
    | h :: t => if c = sep then [] :: h :: t else (c :: h) :: t

/-- Python `str.split(sep)` on a string. -/
def pySplit (s : String) (sep : Char) : List String :=
  (splitAux sep s.data).map (fun l => ⟨l⟩)

/-- Model of `.str.split(sep, expand=True)` parts of one cell: a non-string
(missing) cell yields a missing row rather than raising. -/
def runIdParts : Val → Option (List String)
  | .str s => some (pySplit s '_')
  | _ => none

/-- Number of expanded columns: the widest split. -/
def splitWidth : List (Option (List String)) → ℕ
  | [] => 0
  | some l :: rest => max l.length (splitWidth rest)
  | none :: rest => splitWidth rest

/-- One expanded row, padded on the right with missing values. -/
def padParts (w : ℕ) : Option (List String) → List Val
  | some l => l.map Val.str ++ List.replicate (w - l.length) Val.na
  | none => List.replicate w Val.na

/-- Default integer column labels of an expanded split. -/
def rangeCols (w : ℕ) : List String :=
  (List.range w).map (fun i => toString i)

/-- Model of `.astype(np.int32)` on one cell; a missing value cannot be cast. -/
def astypeI32 : Val → Except PyErr Val
  | .int z => .ok (.int (wrapI32 z))
  | .rat q => .ok (.int (wrapI32 (if 0 ≤ q then ⌊q⌋ else ⌈q⌉)))
  | _ => .error .valueError

/-- Subtracting the header line from an int32 line number. -/
def i32sub1 : Val → Val
  | .int z => .int (wrapI32 (z - 1))
  | v => v

/-- pwc_outfile (lines 191-219).  The two `print` calls at lines
210-211 write to the console only and do not affect the result. -/
def pwc_outfile (env : PwcEnv) (preprocessed : Bool) : Except PyErr DF := do
  let pwc_header := env.pwc_id_fields ++ env.pwc_durations
  if !preprocessed then do
    let table : DF := ⟨pwc_header, env.rawRows⟩
    let lineVals ← getColAttr table "line_num"
    let lineDec ← mapE (fun v => do
      let w ← astypeI32 v
      pure (i32sub1 w)) lineVals
    let table := setColList table "line_num" lineDec
    let p ← popColE table "run_id"
    let parts := p.1.map runIdParts
    let w := splitWidth parts
    let data : DF := ⟨rangeCols w, parts.map (padParts w)⟩
    let newNames := "bunk" :: env.pwc_run_id
    if w ≠ newNames.length then throw PyErr.valueError else
    let data : DF := ⟨newNames, data.rows⟩
    let table := concatCols data p.2
    melt table (table.cols.filter (fun f => !(env.pwc_durations.contains f)))
      env.pwc_durations "duration" "conc"
  else pure env.preTable

/-- Remove the first occurrence of a name from a column list. -/
def removeFirst : List String → String → List String
  | [], _ => []
  | c :: cs, t => if c = t then cs else c :: removeFirst cs t

/-- The decremented int32 line number of a cell, as the claim describes
line 203 (`astype(np.int32) - 1`). -/
def decLineCell : Val → Val
  | .int z => .int (wrapI32 (wrapI32 z - 1))
  | v => v

/-- Claim-side id columns of the melted output: the split run-id
columns (with the leading `bunk` label), then the remaining id
fields. -/
def pwcIdCols (env : PwcEnv) : List String :=
  ("bunk" :: env.pwc_run_id) ++ removeFirst env.pwc_id_fields "run_id"

/-- Claim-side output row for one (input row, duration) pair: the split
run-id parts, the other id cells with line_num decremented, the
duration name, and that duration column's concentration. -/
def pwcExpectedRow (env : PwcEnv) (d : String) (r : List Val) : List Val :=
  padParts (1 + env.pwc_run_id.length)
      (runIdParts (cellByName (env.pwc_id_fields ++ env.pwc_durations) r "run_id")) ++
    (removeFirst env.pwc_id_fields "run_id").map (fun c =>
      if c = "line_num"
      then decLineCell (cellByName (env.pwc_id_fields ++ env.pwc_durations) r c)
      else cellByName (env.pwc_id_fields ++ env.pwc_durations) r c) ++
    [Val.str d, cellByName (env.pwc_id_fields ++ env.pwc_durations) r d]

/-! ### Basic lemmas about the embedding primitives -/

@[simp] theorem colIdx_nil (t : String) : colIdx [] t = none := rfl

/-- A concrete environment exercising the C3 failure. -/
def cropWitnessEnv : CropEnv where
  crop_index := ⟨["cdl", "cdl_alias"], []⟩
  crop_params := ⟨["cdl", "cdl_alias"], []⟩
  crop_dates := ⟨["cdl", "cdl_alias", "plant_begin"], []⟩
  irrigation_data := ⟨["cdl_alias", "state"], []⟩
  group_params := ⟨["pwc_class", "region"], []⟩
  dateFields := ["plant_begin"]
  toDateOffset := fun v => v

/-- Claim-side description of one year of the combinations table: the
file rows (truncated to nrows when given), restricted to the five
header columns read as unsigned 32-bit integers, with the year appended
as a 16-bit integer. -/
def comboYearRowsSpec (env : ComboEnv) (region : String) (nrows : Option ℕ) (year : ℤ) :
    List (List Val) :=
  let raw := env.comboTable region year
  let kept := match nrows with | some n => raw.rows.take n | none => raw.rows
  kept.map (fun r =>
    comboHeader.map (fun c => u32Cell (cellByName raw.cols r c)) ++ [Val.int (wrapI16 year)])

/-- A concrete one-year environment for the C5 witness. -/
def comboWitnessEnv : ComboEnv where
  comboTable := fun _ _ =>
    ⟨["gridcode", "cdl", "weather_grid", "mukey", "area"],
      [[.int 1, .int 2, .int 3, .int 4, .int 5]]⟩

/-- A concrete crop-dates table for the C4 witness: one row with a
winter crop in the begin stage, a summer crop in the end stage, a tie
in the begin_active stage, and a missing plant date in the end_active
stage. -/
def cropDatesWitness : DF :=
  ⟨["plant_begin", "harvest_begin", "plant_end", "harvest_end",
    "plant_begin_active", "harvest_begin_active", "plant_end_active",
    "harvest_end_active"],
   [[.int 200, .int 100, .int 1, .int 2, .int 3, .int 3, .na, .int 5]]⟩

/-- Claim-side output columns of the gdd rename: the non-wide columns
in order, then the stripped names of the wide-temperature columns. -/
def gddSpecCols (cols : List String) : List String :=
  cols.filter (fun c => !(strEndsWith c "temp_f")) ++
    (cols.filter (fun c => strEndsWith c "temp_f")).map (fun c => pyRstrip c ['_', 'f'])

/-- Claim-side output row of the gdd rename: the non-wide cells
unchanged (looked up by name), then the converted wide-temperature
cells. -/
def gddSpecRow (cols : List String) (r : List Val) : List Val :=
  (cols.filter (fun c => !(strEndsWith c "temp_f"))).map (cellByName cols r) ++
    (cols.filter (fun c => strEndsWith c "temp_f")).map
      (fun c => fToC (cellByName cols r c))

/-- The C6 counterexample table: it carries both an
`emergence_base_temp` column and an `emergence_base_temp_f` column. -/
def gddCexEnv : GddEnv :=
  ⟨⟨["emergence_gdd", "maxcover_gdd", "maxcover_base_temp", "emergence_base_temp",
     "emergence_base_temp_f"],
    [[.int 5, .int 6, .int 50, .int 99, .int 50]]⟩⟩

/-- A concrete table for the C6 witness: two wide-temperature columns
and one row that the dropna step removes. -/
def gddWitEnv : GddEnv :=
  ⟨⟨["emergence_gdd", "maxcover_gdd", "emergence_base_temp_f", "maxcover_base_temp_f"],
    [[.int 10, .int 20, .int 50, .int 41], [.na, .int 2, .int 32, .int 41]]⟩⟩

/-- A concrete PWC output environment for the C1 witness: one parsed
line, two duration columns, a two-part run id after the batch label. -/
def pwcWitnessEnv : PwcEnv where
  pwc_id_fields := ["line_num", "run_id", "extra"]
  pwc_durations := ["d1", "d2"]
  pwc_run_id := ["a", "b"]
  rawRows := [[.int 5, .str "x_y_z", .str "e", .int 7, .int 8]]
  preTable := ⟨[], []⟩

theorem colIdx_cons (c : String) (cs : List String) (t : String) :
    colIdx (c :: cs) t = if c = t then some 0 else (colIdx cs t).map (· + 1) := rfl

@[simp] theorem colIdx_cons_self (c : String) (cs : List String) :
    colIdx (c :: cs) c = some 0 := by simp [colIdx_cons]

theorem colIdx_cons_ne {c t : String} (h : c ≠ t) (cs : List String) :
    colIdx (c :: cs) t = (colIdx cs t).map (· + 1) := by simp [colIdx_cons, h]

/-- A column index points at the column name. -/
theorem colIdx_get? {cols : List String} {t : String} {i : ℕ}
    (h : colIdx cols t = some i) : cols.get? i = some t := by
  induction cols generalizing i with
  | nil => simp at h
  | cons c cs ih =>
    by_cases hc : c = t
    · subst hc
      rw [colIdx_cons_self] at h
      cases h
      rfl
    · rw [colIdx_cons_ne hc] at h
      cases hi : colIdx cs t with
      | none => rw [hi] at h; simp at h
      | some j =>
        rw [hi] at h
        simp at h
        subst h
        simpa using ih hi

/-- Membership gives a column index. -/
theorem colIdx_isSome_of_mem {t : String} :
    ∀ {cols : List String}, t ∈ cols → (colIdx cols t).isSome
  | c :: cs, h => by
    by_cases hc : c = t
    · subst hc; simp
    · rw [colIdx_cons_ne hc]
      rcases List.mem_cons.mp h with h | h
      · exact absurd h.symm hc
      · cases hi : colIdx cs t with
        | none => have := colIdx_isSome_of_mem h; rw [hi] at this; simp at this
        | some j => simp

/-- Distinct names have distinct first-occurrence indices. -/
theorem colIdx_ne_of_name_ne {cols : List String} {a b : String} {i j : ℕ}
    (ha : colIdx cols a = some i) (hb : colIdx cols b = some j)
    (hab : a ≠ b) : i ≠ j := by
  intro hij
  subst hij
  have h1 := colIdx_get? ha
  have h2 := colIdx_get? hb
  rw [h1] at h2
  exact hab (Option.some.inj h2)

/-- A column index is below the length of the column list. -/
theorem colIdx_lt_length {cols : List String} {t : String} {i : ℕ}
    (h : colIdx cols t = some i) : i < cols.length :=
  List.get?_eq_some.mp (colIdx_get? h) |>.1

/-! ### C2: the decorator is the identity -/

/-- C2: `test_path(f)` is extensionally `f`: it returns what `f`
returns and re-raises exactly the exception `f` raises, with no
recovery, retry, or substitution (uncatchable `BaseException`s
propagate identically). -/
theorem test_path_identity {α β : Type} (f : α → Except PyErr β) (a : α) :
    test_path f a = f a := by
  unfold test_path tryExcept
  cases h : f a with
  | ok v => rfl
  | error e => cases e <;> rfl

/-! ### C8: gdd with grapes=True raises before reading -/

/-- C8: for every call with grapes=True, gdd raises the FutureWarning
as an exception and returns no table; the result does not depend on the
input file (second conjunct), so no file content is consulted. -/
theorem gdd_grapes_raises (env env2 : GddEnv) :
    gdd env true = Except.error (PyErr.futureWarning "Havent implemented grapes yet") ∧
    gdd env true = gdd env2 true :=
  ⟨rfl, rfl⟩

/-! ### C9: combinations with empty years returns None -/

/-- C9: with an empty `years` iterable the year loop never runs, so
`all_combos` is still None and the caller receives no dataframe; the
result does not depend on any file content (second conjunct), so no
file is read. -/
theorem combinations_empty_years_none (env env2 : ComboEnv) (region region2 : String)
    (nrows nrows2 : Option ℕ) :
    combinations env region [] nrows = Except.ok none ∧
    combinations env region [] nrows = combinations env2 region2 [] nrows2 :=
  ⟨rfl, rfl⟩

/-! ### C10: soils never consults its mode argument -/

/-- C10: for fixed region, state and file contents, `soils` returns
the same result whatever the `mode` argument is: the parameter never
influences the output. -/
theorem soils_ignores_mode (env : SoilsEnv) (mode1 mode2 : String)
    (region state : Option String) :
    soils env mode1 region state = soils env mode2 region state := rfl

/-! ### C3: crop cannot return, `date_fmt` is unbound (code bug) -/

/-- C3 (code bug): the first pass of the date loop at line 75 evaluates
the bare name `date_fmt`, which is bound nowhere in read.py, so crop
raises NameError for every region instead of converting the dates and
returning the joined table. -/
theorem crop_raises_name_error (env : CropEnv) (region f : String) (rest : List String)
    (hdf : env.dateFields = f :: rest)
    (hmem : f ∈ env.crop_dates.cols) :
    crop env region = Except.error (PyErr.nameError "date_fmt") := by
  obtain ⟨i, hi⟩ := Option.isSome_iff_exists.mp (colIdx_isSome_of_mem hmem)
  have hlook : lookupGlobal "date_fmt" = Except.error (PyErr.nameError "date_fmt") := rfl
  unfold crop
  rw [hdf]
  unfold cropDateLoop
  simp only [getColKey, hi, hlook, Except.bind, Bind.bind]

/-- C3 witness: the hypotheses hold of `cropWitnessEnv` and crop("07")
raises NameError on it. -/
theorem crop_raises_name_error_witness :
    cropWitnessEnv.dateFields = "plant_begin" :: [] ∧
    "plant_begin" ∈ cropWitnessEnv.crop_dates.cols ∧
    crop cropWitnessEnv "07" = Except.error (PyErr.nameError "date_fmt") :=
  ⟨rfl, by decide,
    crop_raises_name_error cropWitnessEnv "07" "plant_begin" [] rfl (by decide)⟩

/-! ### C5: combinations concatenates the per-year tables -/

/-- A positional cell of a mapped row, for maps fixing missing
values. -/
theorem cell_map (f : Val → Val) (hna : f Val.na = Val.na) :
    ∀ (r : List Val) (i : ℕ), cell (r.map f) i = f (cell r i)
  | [], i => by cases i <;> simp [cell, hna]
  | v :: rest, 0 => rfl
  | v :: rest, i + 1 => cell_map f hna rest i

/-- A named cell of a mapped row, for maps fixing missing values. -/
theorem cellByName_map (f : Val → Val) (hna : f Val.na = Val.na) (cols : List String)
    (r : List Val) (c : String) :
    cellByName cols (r.map f) c = f (cellByName cols r c) := by
  unfold cellByName
  cases h : colIdx cols c with
  | none => simp [hna]
  | some i => simp [cell_map f hna]

/-- Looking a cell up in a `u32Cell`-coerced row coerces the original
lookup. -/
@[simp] theorem cellByName_map_u32 (cols : List String) (r : List Val) (c : String) :
    cellByName cols (r.map u32Cell) c = u32Cell (cellByName cols r c) :=
  cellByName_map u32Cell rfl cols r c

/-- Reindexing from a `u32Cell`-coerced row coerces the reindexed
cells. -/
theorem reindex_u32_row (cols cs : List String) (r : List Val) :
    cs.map (cellByName cols (r.map u32Cell)) =
      cs.map (fun c => u32Cell (cellByName cols r c)) := by
  induction cs with
  | nil => rfl
  | cons c cs ih => simp [cellByName_map_u32, ih]

/-- One year of the loop produces exactly the claim-side table. -/
theorem readComboYear_ok (env : ComboEnv) (region : String) (nrows : Option ℕ) (year : ℤ)
    (hcols : ∀ c ∈ comboHeader, c ∈ (env.comboTable region year).cols) :
    readComboYear env region nrows year =
      Except.ok ⟨comboHeader ++ ["year"], comboYearRowsSpec env region nrows year⟩ := by
  have hall : comboHeader.all
      (fun c => (colIdx (env.comboTable region year).cols c).isSome) = true := by
    rw [List.all_eq_true]
    intro c hc
    exact colIdx_isSome_of_mem (hcols c hc)
  have hyear : colIdx comboHeader "year" = none := rfl
  unfold readComboYear comboYearRowsSpec
  simp only [selectColsE, hall, if_true, Except.bind, Bind.bind, pure, Except.pure,
    setColScalar, hyear, List.map_map]
  cases nrows with
  | none => simp only [Function.comp_def, reindex_u32_row]
  | some n => simp only [Function.comp_def, reindex_u32_row]

/-- Stacking two tables with identical column lists appends the rows. -/
theorem concat2_same_cols (c : List String) (r1 r2 : List (List Val)) :
    concat2 ⟨c, r1⟩ ⟨c, r2⟩ = ⟨c, r1 ++ r2⟩ := by
  unfold concat2
  rw [if_pos rfl]

/-- The accumulator loop appends the per-year claim-side tables in
years order. -/
theorem combinationsLoop_append (env : ComboEnv) (region : String) (nrows : Option ℕ) :
    ∀ (ys : List ℤ) (rs : List (List Val)),
      (∀ y ∈ ys, ∀ c ∈ comboHeader, c ∈ (env.comboTable region y).cols) →
      combinationsLoop env region nrows ys (some ⟨comboHeader ++ ["year"], rs⟩) =
        Except.ok (some ⟨comboHeader ++ ["year"],
          rs ++ ys.flatMap (comboYearRowsSpec env region nrows)⟩)
  | [], rs, _ => by simp [combinationsLoop]
  | y :: ys, rs, h => by
    have hy : ∀ c ∈ comboHeader, c ∈ (env.comboTable region y).cols :=
      h y (List.mem_cons_self y ys)
    have hys : ∀ y2 ∈ ys, ∀ c ∈ comboHeader, c ∈ (env.comboTable region y2).cols :=
      fun y2 hy2 => h y2 (List.mem_cons_of_mem y hy2)
    unfold combinationsLoop
    rw [readComboYear_ok env region nrows y hy]
    simp only [Except.bind, Bind.bind, concat2_same_cols]
    rw [combinationsLoop_append env region nrows ys
      (rs ++ comboYearRowsSpec env region nrows y) hys]
    simp [List.append_assoc]

/-- C5: for every region and non-empty years list, combinations returns
the row-wise concatenation, in years order, of the per-year tables,
each restricted to [gridcode, cdl, weather_grid, mukey, area] read as
uint32, with a year column as int16; nrows bounds the rows read per
year. -/
theorem combinations_concatenates (env : ComboEnv) (region : String)
    (years : List ℤ) (nrows : Option ℕ)
    (hne : years ≠ [])
    (hcols : ∀ y ∈ years, ∀ c ∈ comboHeader, c ∈ (env.comboTable region y).cols) :
    combinations env region years nrows =
      Except.ok (some ⟨comboHeader ++ ["year"],
        years.flatMap (comboYearRowsSpec env region nrows)⟩) := by
  cases years with
  | nil => exact absurd rfl hne
  | cons y ys =>
    have hy : ∀ c ∈ comboHeader, c ∈ (env.comboTable region y).cols :=
      hcols y (List.mem_cons_self y ys)
    have hys : ∀ y2 ∈ ys, ∀ c ∈ comboHeader, c ∈ (env.comboTable region y2).cols :=
      fun y2 hy2 => hcols y2 (List.mem_cons_of_mem y hy2)
    unfold combinations combinationsLoop
    rw [readComboYear_ok env region nrows y hy]
    simp only [Except.bind, Bind.bind]
    rw [combinationsLoop_append env region nrows ys (comboYearRowsSpec env region nrows y) hys]
    simp

/-- C5 witness: the hypotheses hold at a concrete input, the theorem
applies there, and the resulting table evaluates to its literal value. -/
theorem combinations_concatenates_witness :
    ([(2010 : ℤ)] ≠ []) ∧
    combinations comboWitnessEnv "07" [2010] none =
      Except.ok (some ⟨comboHeader ++ ["year"],
        [(2010 : ℤ)].flatMap (comboYearRowsSpec comboWitnessEnv "07" none)⟩) ∧
    [(2010 : ℤ)].flatMap (comboYearRowsSpec comboWitnessEnv "07" none) =
      [[.int 1, .int 2, .int 3, .int 4, .int 5, .int 2010]] :=
  ⟨by decide,
    combinations_concatenates comboWitnessEnv "07" [2010] none (by decide)
      (by decide),
    by decide⟩

/-! ### C7: soils with a state and no region -/

/-- Bind reduction on an ok value. -/
theorem excOk_bind {α β : Type} (v : α) (f : α → Except PyErr β) :
    (Except.ok v : Except PyErr α) >>= f = f v := rfl

/-- Bind reduction on a raised exception. -/
theorem excError_bind {α β : Type} (e : PyErr) (f : α → Except PyErr β) :
    (Except.error e : Except PyErr α) >>= f = Except.error e := rfl

/-- Bind reduction on a pure value. -/
theorem excPure_bind {α β : Type} (v : α) (f : α → Except PyErr β) :
    (pure v : Except PyErr α) >>= f = f v := rfl

/-- The three-table inner loop of soils, in closed form for one
state. -/
theorem soilsStateTable_eq (env : SoilsEnv) (state : String) :
    soilsStateTable env state =
      (do
        let m1 ← merge (env.ssurgoTable state "muaggatt") (env.ssurgoTable state "component")
          ["mukey"] .outer ("_x", "_y")
        let m2 ← merge m1 (env.ssurgoTable state "chorizon") ["cokey"] .outer ("_x", "_y")
        pure (setColScalar m2 "state" (.str state))) := by
  unfold soilsStateTable soilsTableSpecs
  simp only [soilsStateLoop, ssurgo, bind_assoc, excOk_bind, excError_bind, excPure_bind]

/-- C7: when `state` is given and `region` is None, soils processes
exactly that one state: it outer-joins muaggatt with component on
mukey, outer-joins chorizon on cokey, tags the rows with a `state`
column, concatenates the (single) state table, inner-joins the shared
valu table on mukey, and renames columns by `fields.convert`. -/
theorem soils_single_state (env : SoilsEnv) (mode st : String) :
    soils env mode none (some st) =
      (do
        let m1 ← merge (env.ssurgoTable st "muaggatt") (env.ssurgoTable st "component")
          ["mukey"] .outer ("_x", "_y")
        let m2 ← merge m1 (env.ssurgoTable st "chorizon") ["cokey"] .outer ("_x", "_y")
        let tagged := setColScalar m2 "state" (.str st)
        let joined ← merge tagged (env.ssurgoTable "" "valu") ["mukey"] .inner ("_x", "_y")
        pure (renameCols joined env.convert)) := by
  unfold soils
  simp only [mapE, soilsStateTable_eq, concatAll, ssurgo, bind_assoc,
    excOk_bind, excError_bind, excPure_bind, List.foldl_nil]

/-! ### C4: the winter-crop harvest adjustment -/

/-- Writing a cell and reading it back. -/
theorem cell_set_self : ∀ (r : List Val) (i : ℕ) (v : Val), i < r.length →
    cell (r.set i v) i = v
  | _ :: _, 0, _, _ => rfl
  | _ :: rest, i + 1, v, h => cell_set_self rest i v (by simpa using h)
  | [], _, _, h => absurd h (by simp)

/-- Writing a cell leaves the other positions unchanged. -/
theorem cell_set_ne : ∀ (r : List Val) (i j : ℕ) (v : Val), i ≠ j →
    cell (r.set i v) j = cell r j
  | [], _, _, _, _ => rfl
  | _ :: _, 0, 0, _, h => absurd rfl h
  | _ :: _, 0, _ + 1, _, _ => rfl
  | _ :: _, _ + 1, 0, _, _ => rfl
  | _ :: rest, i + 1, j + 1, v, h => cell_set_ne rest i j v (fun hh => h (by omega))

/-- Row of a mapped row list, below the length. -/
theorem getD_map_lt : ∀ (rows : List (List Val)) (g : List Val → List Val) (i : ℕ),
    i < rows.length → (rows.map g).getD i [] = g (rows.getD i [])
  | _ :: _, _, 0, _ => rfl
  | _ :: rest, g, i + 1, h => getD_map_lt rest g i (by simpa using h)
  | [], _, _, h => absurd h (by simp)

/-- Row of a row list, below the length, is a member. -/
theorem getD_mem : ∀ (rows : List (List Val)) (i : ℕ), i < rows.length →
    rows.getD i [] ∈ rows
  | r :: rest, 0, _ => List.mem_cons_self r rest
  | r :: rest, i + 1, h => List.mem_cons_of_mem r (getD_mem rest i (by simpa using h))
  | [], _, h => absurd h (by simp)

/-- Row of a row list past the length is the default. -/
theorem getD_ge : ∀ (rows : List (List Val)) (i : ℕ), rows.length ≤ i →
    rows.getD i [] = []
  | [], _, _ => by cases i' : ([] : List (List Val)).getD 0 [] <;> simp [List.getD]
  | _ :: rest, i + 1, h => getD_ge rest i (by simpa using h)
  | r :: rest, 0, h => absurd h (by simp)

/-- The masked row update keeps the row length. -/
theorem adjRow_length (pidx hidx : ℕ) (r : List Val) :
    (adjRow pidx hidx r).length = r.length := by
  unfold adjRow
  split
  · simp
  · rfl

/-- The masked row update leaves every cell outside the harvest column
unchanged. -/
theorem cell_adjRow_ne (pidx hidx j : ℕ) (r : List Val) (hne : j ≠ hidx) :
    cell (adjRow pidx hidx r) j = cell r j := by
  unfold adjRow
  split
  · exact cell_set_ne r hidx j _ (fun h => hne h.symm)
  · rfl

/-- The masked row update on the harvest cell itself. -/
theorem cell_adjRow_self (pidx hidx : ℕ) (r : List Val) (hlt : hidx < r.length) :
    cell (adjRow pidx hidx r) hidx =
      (if valGtCell (cell r pidx) (cell r hidx) then valAdd365 (cell r hidx)
       else cell r hidx) := by
  unfold adjRow
  split
  · exact cell_set_self r hidx _ hlt
  · rfl

/-- Effect of one `adjustStage` pass on every cell of the table. -/
theorem adjustStage_cells (t : DF) (s : String)
    (hrect : ∀ r ∈ t.rows, r.length = t.cols.length)
    (hp : ("plant_" ++ s) ∈ t.cols) (hh : ("harvest_" ++ s) ∈ t.cols) :
    ∃ out, adjustStage t s = Except.ok out ∧ out.cols = t.cols ∧
      out.rows.length = t.rows.length ∧
      (∀ r ∈ out.rows, r.length = out.cols.length) ∧
      (∀ i c, c ≠ ("harvest_" ++ s) → cellAt out i c = cellAt t i c) ∧
      (∀ i, i < t.rows.length →
        cellAt out i ("harvest_" ++ s) =
          (if valGtCell (cellAt t i ("plant_" ++ s)) (cellAt t i ("harvest_" ++ s))
           then valAdd365 (cellAt t i ("harvest_" ++ s))
           else cellAt t i ("harvest_" ++ s))) := by
  obtain ⟨pidx, hpi⟩ := Option.isSome_iff_exists.mp (colIdx_isSome_of_mem hp)
  obtain ⟨hidx, hhi⟩ := Option.isSome_iff_exists.mp (colIdx_isSome_of_mem hh)
  refine ⟨⟨t.cols, t.rows.map (adjRow pidx hidx)⟩, ?_, rfl, by simp, ?_, ?_, ?_⟩
  · unfold adjustStage
    rw [hpi, hhi]
  · intro r hr
    obtain ⟨r0, hr0, rfl⟩ := List.mem_map.mp hr
    simpa [adjRow_length] using hrect r0 hr0
  · intro i c hcne
    unfold cellAt
    by_cases hi : i < t.rows.length
    · show cellByName t.cols ((t.rows.map (adjRow pidx hidx)).getD i []) c = _
      rw [getD_map_lt t.rows _ i hi]
      unfold cellByName
      cases hc : colIdx t.cols c with
      | none => rfl
      | some j =>
        exact cell_adjRow_ne pidx hidx j _ (colIdx_ne_of_name_ne hc hhi hcne)
    · have hge : t.rows.length ≤ i := Nat.le_of_not_lt hi
      show cellByName t.cols ((t.rows.map (adjRow pidx hidx)).getD i []) c =
        cellByName t.cols (t.rows.getD i []) c
      rw [getD_ge t.rows i hge, getD_ge (t.rows.map (adjRow pidx hidx)) i (by simpa using hge)]
  · intro i hi
    unfold cellAt cellByName
    rw [hpi, hhi]
    show cell ((t.rows.map (adjRow pidx hidx)).getD i []) hidx = _
    rw [getD_map_lt t.rows _ i hi]
    apply cell_adjRow_self
    rw [hrect _ (getD_mem t.rows i hi)]
    exact colIdx_lt_length hhi

/-- Effect of the whole stage loop on every cell, for a stage list
with distinct harvest columns that are not plant columns. -/
theorem adjustHarvest_cells : ∀ (stages : List String) (t : DF),
    (∀ r ∈ t.rows, r.length = t.cols.length) →
    (stages.map (fun x => "harvest_" ++ x)).Nodup →
    (∀ s1 ∈ stages, ∀ s2 ∈ stages, ("plant_" ++ s1) ≠ ("harvest_" ++ s2)) →
    (∀ s ∈ stages, ("plant_" ++ s) ∈ t.cols ∧ ("harvest_" ++ s) ∈ t.cols) →
    ∃ out, adjustHarvest stages t = Except.ok out ∧ out.cols = t.cols ∧
      out.rows.length = t.rows.length ∧
      (∀ r ∈ out.rows, r.length = out.cols.length) ∧
      (∀ i c, (∀ s2 ∈ stages, c ≠ ("harvest_" ++ s2)) → cellAt out i c = cellAt t i c) ∧
      (∀ i, i < t.rows.length → ∀ s ∈ stages,
        cellAt out i ("harvest_" ++ s) =
          (if valGtCell (cellAt t i ("plant_" ++ s)) (cellAt t i ("harvest_" ++ s))
           then valAdd365 (cellAt t i ("harvest_" ++ s))
           else cellAt t i ("harvest_" ++ s)))
  | [], t, hrect, _, _, _ => by
    exact ⟨t, rfl, rfl, rfl, hrect, fun i c _ => rfl, fun i _ s hs => absurd hs (by simp)⟩
  | s :: rest, t, hrect, hnodup, hsep, hcols => by
    obtain ⟨hp, hh⟩ := hcols s (List.mem_cons_self s rest)
    obtain ⟨out1, heq1, hcols1, hlen1, hrect1, hpres1, hval1⟩ :=
      adjustStage_cells t s hrect hp hh
    have hnodup2 := (List.nodup_cons.mp hnodup).2
    have hnotmem := (List.nodup_cons.mp hnodup).1
    have hsne : ∀ s2 ∈ rest, ("harvest_" ++ s) ≠ ("harvest_" ++ s2) := by
      intro s2 hs2 heq
      apply hnotmem
      show ("harvest_" ++ s) ∈ List.map (fun x => "harvest_" ++ x) rest
      rw [heq]
      exact List.mem_map_of_mem (fun x => "harvest_" ++ x) hs2
    obtain ⟨out, heq, hcolsf, hlenf, hrectf, hpresf, hvalf⟩ :=
      adjustHarvest_cells rest out1
        (by intro r hr; rw [hrect1 r hr, hcols1])
        hnodup2
        (fun s1 h1 s2 h2 =>
          hsep s1 (List.mem_cons_of_mem s h1) s2 (List.mem_cons_of_mem s h2))
        (by
          intro s2 hs2
          rw [hcols1]
          exact hcols s2 (List.mem_cons_of_mem s hs2))
    refine ⟨out, ?_, by rw [hcolsf, hcols1], by rw [hlenf, hlen1], hrectf, ?_, ?_⟩
    · unfold adjustHarvest
      rw [heq1]
      show adjustHarvest rest out1 = Except.ok out
      exact heq
    · intro i c hc
      rw [hpresf i c (fun s2 h2 => hc s2 (List.mem_cons_of_mem s h2))]
      exact hpres1 i c (hc s (List.mem_cons_self s rest))
    · intro i hi s2 hs2
      rcases List.mem_cons.mp hs2 with hcase | hcase
      · subst hcase
        rw [hpresf i _ (fun s3 h3 => hsne s3 h3)]
        exact hval1 i hi
      · have hi1 : i < out1.rows.length := by rw [hlen1]; exact hi
        rw [hvalf i hi1 s2 hcase,
          hpres1 i ("plant_" ++ s2)
            (hsep s2 (List.mem_cons_of_mem s hcase) s (List.mem_cons_self s rest)),
          hpres1 i ("harvest_" ++ s2) (fun heq => hsne s2 hcase heq.symm)]

/-- C4: in the crop-dates adjustment of lines 76-78, for every row and
every stage, the harvest offset gains 365 exactly when the plant offset
was strictly greater, and is otherwise unchanged; the plant offset is
never modified. -/
theorem crop_harvest_adjustment (df : DF)
    (hrect : ∀ r ∈ df.rows, r.length = df.cols.length)
    (hcols : ∀ s ∈ cropStages, ("plant_" ++ s) ∈ df.cols ∧ ("harvest_" ++ s) ∈ df.cols) :
    ∃ out, adjustHarvest cropStages df = Except.ok out ∧ out.cols = df.cols ∧
      out.rows.length = df.rows.length ∧
      ∀ i, i < df.rows.length → ∀ s ∈ cropStages,
        (cellAt out i ("harvest_" ++ s) =
          (if valGtCell (cellAt df i ("plant_" ++ s)) (cellAt df i ("harvest_" ++ s))
           then valAdd365 (cellAt df i ("harvest_" ++ s))
           else cellAt df i ("harvest_" ++ s))) ∧
        cellAt out i ("plant_" ++ s) = cellAt df i ("plant_" ++ s) := by
  have hsep : ∀ s1 ∈ cropStages, ∀ s2 ∈ cropStages,
      ("plant_" ++ s1) ≠ ("harvest_" ++ s2) := by decide
  obtain ⟨out, h1, h2, h3, _, h5, h6⟩ :=
    adjustHarvest_cells cropStages df hrect (by decide) hsep hcols
  refine ⟨out, h1, h2, h3, fun i hi s hs => ⟨h6 i hi s hs, ?_⟩⟩
  exact h5 i ("plant_" ++ s) (fun s2 h2m => hsep s hs s2 h2m)

/-- C4 witness: the hypotheses hold of the concrete table, the theorem
applies there, and the loop evaluates to the expected literal table
(only the winter-crop harvest gains 365). -/
theorem crop_harvest_adjustment_witness :
    (∀ r ∈ cropDatesWitness.rows, r.length = cropDatesWitness.cols.length) ∧
    (∃ out, adjustHarvest cropStages cropDatesWitness = Except.ok out ∧
      out.cols = cropDatesWitness.cols ∧
      out.rows.length = cropDatesWitness.rows.length ∧
      ∀ i, i < cropDatesWitness.rows.length → ∀ s ∈ cropStages,
        (cellAt out i ("harvest_" ++ s) =
          (if valGtCell (cellAt cropDatesWitness i ("plant_" ++ s))
              (cellAt cropDatesWitness i ("harvest_" ++ s))
           then valAdd365 (cellAt cropDatesWitness i ("harvest_" ++ s))
           else cellAt cropDatesWitness i ("harvest_" ++ s))) ∧
        cellAt out i ("plant_" ++ s) = cellAt cropDatesWitness i ("plant_" ++ s)) ∧
    adjustHarvest cropStages cropDatesWitness =
      Except.ok ⟨cropDatesWitness.cols,
        [[.int 200, .int 465, .int 1, .int 2, .int 3, .int 3, .na, .int 5]]⟩ :=
  ⟨by decide, crop_harvest_adjustment cropDatesWitness (by decide) (by decide), rfl⟩

/-! ### C6: helper lemmas on names, lookups and erasure -/

/-- Strings with equal character data are equal. -/
theorem string_ext : ∀ {a b : String}, a.data = b.data → a = b
  | ⟨_⟩, ⟨_⟩, rfl => rfl

/-- A name ending in the wide-temperature suffix splits as a stem plus
that suffix, and `rstrip` removes exactly the two trailing characters
(the preceding letter stops the strip). -/
theorem tempf_decomp {c : String} (h : strEndsWith c "temp_f" = true) :
    ∃ pre : List Char, c.data = pre ++ ['t', 'e', 'm', 'p', '_', 'f'] ∧
      (pyRstrip c ['_', 'f']).data = pre ++ ['t', 'e', 'm', 'p'] := by
  unfold strEndsWith at h
  unfold List.isSuffixOf at h
  rw [ List.isPrefixOf_iff_prefix] at h
  obtain ⟨post, hpost⟩ := h
  have hrev : post.reverse ++ "temp_f".data = c.data := by
    have := congrArg List.reverse hpost
    simpa using this
  obtain ⟨pre, hpre⟩ : ∃ pre : List Char, pre ++ "temp_f".data = c.data := ⟨post.reverse, hrev⟩
  refine ⟨pre, hpre.symm ▸ rfl, ?_⟩
  unfold pyRstrip
  rw [← hpre]
  simp [List.reverse_append, List.dropWhile]

/-- A stripped wide-temperature name does not itself end in the
suffix. -/
theorem tempf_strip_not_tf {c : String} (h : strEndsWith c "temp_f" = true) :
    strEndsWith (pyRstrip c ['_', 'f']) "temp_f" = false := by
  obtain ⟨pre, hc, hstrip⟩ := tempf_decomp h
  by_contra hcon
  rw [Bool.not_eq_false] at hcon
  obtain ⟨pre2, hc2, _⟩ := tempf_decomp hcon
  rw [hstrip] at hc2
  have h1 := congrArg (fun l : List Char => l.reverse.head?) hc2
  simp [List.reverse_append] at h1

/-- Stripping is injective on wide-temperature names. -/
theorem tempf_strip_inj {c1 c2 : String} (h1 : strEndsWith c1 "temp_f" = true)
    (h2 : strEndsWith c2 "temp_f" = true)
    (heq : pyRstrip c1 ['_', 'f'] = pyRstrip c2 ['_', 'f']) : c1 = c2 := by
  obtain ⟨p1, hc1, hs1⟩ := tempf_decomp h1
  obtain ⟨p2, hc2, hs2⟩ := tempf_decomp h2
  have hd : p1 ++ ['t', 'e', 'm', 'p'] = p2 ++ ['t', 'e', 'm', 'p'] := by
    rw [← hs1, ← hs2, heq]
  have hp : p1 = p2 := by
    have hrev := congrArg List.reverse hd
    simp [List.reverse_append] at hrev
    exact hrev
  apply string_ext
  rw [hc1, hc2, hp]

/-- A name absent from the column list has no column index. -/
theorem colIdx_eq_none {cols : List String} {x : String} (h : x ∉ cols) :
    colIdx cols x = none := by
  cases hc : colIdx cols x with
  | none => rfl
  | some i => exact absurd (List.get?_mem (colIdx_get? hc)) h

/-- Named lookup in an empty row is missing. -/
theorem cellByName_nil_row (cols : List String) (c : String) :
    cellByName cols [] c = Val.na := by
  unfold cellByName
  cases colIdx cols c with
  | none => rfl
  | some i => rfl

/-- Named lookup steps through a cons cell. -/
theorem cellByName_cons_cons (y : String) (ys : List String) (v : Val) (rv : List Val)
    (c : String) :
    cellByName (y :: ys) (v :: rv) c = if y = c then v else cellByName ys rv c := by
  unfold cellByName
  by_cases hyc : y = c
  · subst hyc
    rw [if_pos rfl, colIdx_cons_self]
    rfl
  · rw [if_neg hyc, colIdx_cons_ne hyc]
    cases colIdx ys c with
    | none => rfl
    | some j => rfl

/-- Named lookup in an append, name present on the left. -/
theorem cellByName_append_left : ∀ (a : List String) (ra : List Val) (b : List String)
    (rb : List Val) (c : String), c ∈ a → ra.length = a.length →
    cellByName (a ++ b) (ra ++ rb) c = cellByName a ra c
  | [], _, _, _, _, hmem, _ => absurd hmem (by simp)
  | _ :: _, [], _, _, _, _, hlen => absurd hlen (by simp)
  | y :: ys, v :: rs, b, rb, c, hmem, hlen => by
    rw [List.cons_append, List.cons_append, cellByName_cons_cons, cellByName_cons_cons]
    by_cases hyc : y = c
    · rw [if_pos hyc, if_pos hyc]
    · rw [if_neg hyc, if_neg hyc]
      have hc2 : c ∈ ys := by
        rcases List.mem_cons.mp hmem with h | h
        · exact absurd h.symm hyc
        · exact h
      exact cellByName_append_left ys rs b rb c hc2 (by simpa using hlen)

/-- Named lookup in an append, name absent on the left. -/
theorem cellByName_append_right : ∀ (a : List String) (ra : List Val) (b : List String)
    (rb : List Val) (c : String), c ∉ a → ra.length = a.length →
    cellByName (a ++ b) (ra ++ rb) c = cellByName b rb c
  | [], [], _, _, _, _, _ => rfl
  | [], _ :: _, _, _, _, _, hlen => absurd hlen (by simp)
  | _ :: _, [], _, _, _, _, hlen => absurd hlen (by simp)
  | y :: ys, v :: rs, b, rb, c, hna, hlen => by
    rw [List.cons_append, List.cons_append, cellByName_cons_cons,
      if_neg (fun h => hna (by rw [← h]; exact List.mem_cons_self y ys))]
    exact cellByName_append_right ys rs b rb c
      (fun h => hna (List.mem_cons_of_mem y h)) (by simpa using hlen)

/-- Erasing one column (by its index) leaves the lookup of every other
name unchanged. -/
theorem cellByName_eraseIdx : ∀ (cols : List String) (r : List Val) (x c : String) (i : ℕ),
    colIdx cols x = some i → c ≠ x →
    cellByName (cols.eraseIdx i) (r.eraseIdx i) c = cellByName cols r c
  | [], _, _, _, _, hci, _ => by simp at hci
  | y :: ys, [], x, c, i, hci, hcx => by
    rw [List.eraseIdx_nil, cellByName_nil_row, cellByName_nil_row]
  | y :: ys, v :: rv, x, c, i, hci, hcx => by
    by_cases hyx : y = x
    · subst hyx
      rw [colIdx_cons_self] at hci
      cases hci
      rw [List.eraseIdx_cons_zero, List.eraseIdx_cons_zero, cellByName_cons_cons,
        if_neg (fun h => hcx h.symm)]
    · rw [colIdx_cons_ne hyx] at hci
      cases hj : colIdx ys x with
      | none => rw [hj] at hci; simp at hci
      | some j =>
        rw [hj] at hci
        cases hci
        rw [List.eraseIdx_cons_succ, List.eraseIdx_cons_succ, cellByName_cons_cons,
          cellByName_cons_cons, cellByName_eraseIdx ys rv x c j hj hcx]

/-- A member distinct from the erased column stays a member. -/
theorem mem_eraseIdx_of_ne : ∀ (cols : List String) (c x : String) (i : ℕ),
    colIdx cols c = some i → x ∈ cols → x ≠ c → x ∈ cols.eraseIdx i
  | [], _, _, _, hci, _, _ => by simp at hci
  | y :: ys, c, x, i, hci, hmem, hxc => by
    by_cases hyc : y = c
    · subst hyc
      rw [colIdx_cons_self] at hci
      cases hci
      rw [List.eraseIdx_cons_zero]
      rcases List.mem_cons.mp hmem with h | h
      · exact absurd h hxc
      · exact h
    · rw [colIdx_cons_ne hyc] at hci
      cases hj : colIdx ys c with
      | none => rw [hj] at hci; simp at hci
      | some j =>
        rw [hj] at hci
        cases hci
        rw [List.eraseIdx_cons_succ]
        rcases List.mem_cons.mp hmem with h | h
        · exact h ▸ List.mem_cons_self y (ys.eraseIdx j)
        · exact List.mem_cons_of_mem y (mem_eraseIdx_of_ne ys c x j hj h hxc)

/-- The erased column itself is no longer a member, in a duplicate-free
list. -/
theorem not_mem_eraseIdx_self : ∀ (cols : List String) (c : String) (i : ℕ),
    cols.Nodup → colIdx cols c = some i → c ∉ cols.eraseIdx i
  | [], _, _, _, hci => by simp at hci
  | y :: ys, c, i, hnd, hci => by
    by_cases hyc : y = c
    · subst hyc
      rw [colIdx_cons_self] at hci
      cases hci
      rw [List.eraseIdx_cons_zero]
      exact (List.nodup_cons.mp hnd).1
    · rw [colIdx_cons_ne hyc] at hci
      cases hj : colIdx ys c with
      | none => rw [hj] at hci; simp at hci
      | some j =>
        rw [hj] at hci
        cases hci
        rw [List.eraseIdx_cons_succ]
        intro hmem
        rcases List.mem_cons.mp hmem with h | h
        · exact hyc h.symm
        · exact not_mem_eraseIdx_self ys c j (List.nodup_cons.mp hnd).2 hj h

/-- Filtering after erasing the single occurrence of a column that the
filter drops anyway. -/
theorem filter_eraseIdx_cols : ∀ (cols : List String) (c : String) (i : ℕ),
    cols.Nodup → colIdx cols c = some i →
    ∀ (p p2 : String → Bool), p c = false → (∀ x ∈ cols, x ≠ c → p x = p2 x) →
    cols.filter p = (cols.eraseIdx i).filter p2
  | [], _, _, _, hci => by simp at hci
  | x :: xs, c, i, hnd, hci => by
    intro p p2 hpc hagree
    by_cases hxc : x = c
    · subst hxc
      rw [colIdx_cons_self] at hci
      cases hci
      rw [List.eraseIdx_cons_zero, List.filter_cons, hpc]
      simp only [Bool.false_eq_true, if_false]
      apply List.filter_congr
      intro y hy
      have hyx : y ≠ x := fun hh => (List.nodup_cons.mp hnd).1 (hh ▸ hy)
      exact hagree y (List.mem_cons_of_mem x hy) hyx
    · rw [colIdx_cons_ne hxc] at hci
      cases hj : colIdx xs c with
      | none => rw [hj] at hci; simp at hci
      | some j =>
        rw [hj] at hci
        cases hci
        rw [List.eraseIdx_cons_succ, List.filter_cons, List.filter_cons,
          hagree x (List.mem_cons_self x xs) hxc,
          filter_eraseIdx_cols xs c j (List.nodup_cons.mp hnd).2 hj p p2 hpc
            (fun y hy hyc => hagree y (List.mem_cons_of_mem x hy) hyc)]

/-- Looking every column of a duplicate-free table up by name rebuilds
the row. -/
theorem selfLookup : ∀ (cols : List String) (r : List Val), cols.Nodup →
    r.length = cols.length → cols.map (cellByName cols r) = r
  | [], [], _, _ => rfl
  | [], _ :: _, _, h => absurd h (by simp)
  | _ :: _, [], _, h => absurd h (by simp)
  | c :: cs, v :: rv, hnd, hlen => by
    have htail : cs.map (cellByName (c :: cs) (v :: rv)) = cs.map (cellByName cs rv) := by
      apply List.map_congr_left
      intro x hx
      rw [cellByName_cons_cons, if_neg (fun h => (List.nodup_cons.mp hnd).1 (by rw [h]; exact hx))]
    rw [List.map_cons, cellByName_cons_cons, if_pos rfl, htail,
      selfLookup cs rv (List.nodup_cons.mp hnd).2 (by simpa using hlen)]

/-- The rename loop body skips a column without the suffix. -/
theorem gddRenameStep_not_tf (t : DF) (c : String)
    (h : strEndsWith c "temp_f" = false) : gddRenameStep t c = Except.ok t := by
  simp only [gddRenameStep, h, Bool.false_eq_true, if_false]
  rfl

/-- The rename loop body pops a suffix column and appends the stripped,
converted column on the right. -/
theorem gddRenameStep_tf (t : DF) (c : String) (i : ℕ)
    (htf : strEndsWith c "temp_f" = true) (hci : colIdx t.cols c = some i)
    (hnost : pyRstrip c ['_', 'f'] ∉ t.cols) :
    gddRenameStep t c = Except.ok
      ⟨t.cols.eraseIdx i ++ [pyRstrip c ['_', 'f']],
       t.rows.map (fun r => r.eraseIdx i ++ [fToC (cell r i)])⟩ := by
  have hnone : colIdx (t.cols.eraseIdx i) (pyRstrip c ['_', 'f']) = none :=
    colIdx_eq_none (fun hmem => hnost ((List.eraseIdx_sublist t.cols i).subset hmem))
  simp only [gddRenameStep, htf, if_true, popColE, hci, Except.bind, Bind.bind,
    pure, Except.pure, setColList, hnone, List.zip_map', List.map_map]
  simp [Function.comp_def]

/-- The rename loop, over a duplicate-free snapshot of a duplicate-free
column list whose stripped names collide with nothing, produces the
claim-side columns and rows (stated with the snapshot explicit; `gdd`
instantiates it with the table columns themselves). -/
theorem gddRenameLoop_spec : ∀ (cs : List String) (t : DF),
    cs.Nodup → t.cols.Nodup →
    (∀ r ∈ t.rows, r.length = t.cols.length) →
    (∀ c ∈ cs, strEndsWith c "temp_f" = true → c ∈ t.cols) →
    (∀ c ∈ cs, strEndsWith c "temp_f" = true → pyRstrip c ['_', 'f'] ∉ t.cols) →
    gddRenameLoop cs t = Except.ok
      ⟨t.cols.filter (fun x => !(strEndsWith x "temp_f" && cs.contains x)) ++
        (cs.filter (fun x => strEndsWith x "temp_f")).map (fun x => pyRstrip x ['_', 'f']),
       t.rows.map (fun r =>
        (t.cols.filter (fun x => !(strEndsWith x "temp_f" && cs.contains x))).map
          (cellByName t.cols r) ++
        (cs.filter (fun x => strEndsWith x "temp_f")).map
          (fun x => fToC (cellByName t.cols r x)))⟩
  | [], t, _, hndc, hrect, _, _ => by
    obtain ⟨cols, rows⟩ := t
    simp only [gddRenameLoop]
    have hfil : cols.filter
        (fun x => !(strEndsWith x "temp_f" && ([] : List String).contains x)) = cols := by
      apply List.filter_eq_self.mpr
      intro x _
      simp
    rw [hfil]
    simp only [List.filter_nil, List.map_nil, List.append_nil]
    have hrows : rows.map (fun r => cols.map (cellByName cols r)) = rows := by
      have hpt : ∀ r ∈ rows, cols.map (cellByName cols r) = (fun r => r) r :=
        fun r hr => selfLookup cols r hndc (hrect r hr)
      rw [List.map_congr_left hpt, List.map_id']
    rw [hrows]
  | c :: cs, t, hnd, hndc, hrect, hin, hnost => by
    have hnd2 := (List.nodup_cons.mp hnd).2
    have hcnotin := (List.nodup_cons.mp hnd).1
    by_cases htf : strEndsWith c "temp_f" = true
    · obtain ⟨i, hci⟩ :=
        Option.isSome_iff_exists.mp
          (colIdx_isSome_of_mem (hin c (List.mem_cons_self c cs) htf))
      have hstripc : pyRstrip c ['_', 'f'] ∉ t.cols :=
        hnost c (List.mem_cons_self c cs) htf
      have hilt : i < t.cols.length := colIdx_lt_length hci
      have hstep := gddRenameStep_tf t c i htf hci hstripc
      have hstripe : pyRstrip c ['_', 'f'] ∉ t.cols.eraseIdx i :=
        fun hmem => hstripc ((List.eraseIdx_sublist t.cols i).subset hmem)
      have hnodup2 : (t.cols.eraseIdx i ++ [pyRstrip c ['_', 'f']]).Nodup := by
        rw [List.nodup_append]
        refine ⟨(List.eraseIdx_sublist t.cols i).nodup hndc, List.nodup_singleton _, ?_⟩
        intro x hx hx2
        have hxe := List.mem_singleton.mp hx2
        rw [hxe] at hx
        exact hstripe hx
      have hrect2 : ∀ r2 ∈ t.rows.map (fun r => r.eraseIdx i ++ [fToC (cell r i)]),
          r2.length = (t.cols.eraseIdx i ++ [pyRstrip c ['_', 'f']]).length := by
        intro r2 hr2
        obtain ⟨r, hr, rfl⟩ := List.mem_map.mp hr2
        have hri : i < r.length := by rw [hrect r hr]; exact hilt
        rw [List.length_append, List.length_append, List.length_eraseIdx_of_lt hri,
          List.length_eraseIdx_of_lt hilt, hrect r hr]
        rfl
      have hin2 : ∀ x ∈ cs, strEndsWith x "temp_f" = true →
          x ∈ t.cols.eraseIdx i ++ [pyRstrip c ['_', 'f']] := by
        intro x hx hxtf
        apply List.mem_append_left
        exact mem_eraseIdx_of_ne t.cols c x i hci (hin x (List.mem_cons_of_mem c hx) hxtf)
          (fun hh => hcnotin (hh ▸ hx))
      have hnost2 : ∀ x ∈ cs, strEndsWith x "temp_f" = true →
          pyRstrip x ['_', 'f'] ∉ t.cols.eraseIdx i ++ [pyRstrip c ['_', 'f']] := by
        intro x hx hxtf hmem
        rcases List.mem_append.mp hmem with h | h
        · exact hnost x (List.mem_cons_of_mem c hx) hxtf
            ((List.eraseIdx_sublist t.cols i).subset h)
        · have hxc : x = c := tempf_strip_inj hxtf htf (List.mem_singleton.mp h)
          exact hcnotin (hxc ▸ hx)
      have hIH := gddRenameLoop_spec cs
        ⟨t.cols.eraseIdx i ++ [pyRstrip c ['_', 'f']],
         t.rows.map (fun r => r.eraseIdx i ++ [fToC (cell r i)])⟩
        hnd2 hnodup2 hrect2 hin2 hnost2
      have hPc : (!(strEndsWith c "temp_f" && (c :: cs).contains c)) = false := by
        simp [htf]
      have hagree : ∀ x ∈ t.cols, x ≠ c →
          (!(strEndsWith x "temp_f" && (c :: cs).contains x)) =
            (!(strEndsWith x "temp_f" && cs.contains x)) := by
        intro x _ hxc
        have hcon : ((c :: cs).contains x) = (cs.contains x) := by
          simp [List.contains_cons, hxc]
        rw [hcon]
      have hfilters : t.cols.filter
            (fun x => !(strEndsWith x "temp_f" && (c :: cs).contains x)) =
          (t.cols.eraseIdx i).filter
            (fun x => !(strEndsWith x "temp_f" && cs.contains x)) :=
        filter_eraseIdx_cols t.cols c i hndc hci _ _ hPc hagree
      have htfsplit : ((c :: cs).filter (fun x => strEndsWith x "temp_f")) =
          c :: cs.filter (fun x => strEndsWith x "temp_f") := by
        simp [List.filter_cons, htf]
      have hcolseq :
          ((t.cols.eraseIdx i ++ [pyRstrip c ['_', 'f']]).filter
              (fun x => !(strEndsWith x "temp_f" && cs.contains x))) =
            (t.cols.eraseIdx i).filter (fun x => !(strEndsWith x "temp_f" && cs.contains x))
              ++ [pyRstrip c ['_', 'f']] := by
        rw [List.filter_append]
        congr 1
        simp [tempf_strip_not_tf htf]
      have hroweq : ∀ r ∈ t.rows,
          ((t.cols.eraseIdx i ++ [pyRstrip c ['_', 'f']]).filter
            (fun x => !(strEndsWith x "temp_f" && cs.contains x))).map
              (cellByName (t.cols.eraseIdx i ++ [pyRstrip c ['_', 'f']])
                (r.eraseIdx i ++ [fToC (cell r i)])) ++
          (cs.filter (fun x => strEndsWith x "temp_f")).map
            (fun x => fToC (cellByName (t.cols.eraseIdx i ++ [pyRstrip c ['_', 'f']])
              (r.eraseIdx i ++ [fToC (cell r i)]) x)) =
          (t.cols.filter (fun x => !(strEndsWith x "temp_f" && (c :: cs).contains x))).map
            (cellByName t.cols r) ++
          ((c :: cs).filter (fun x => strEndsWith x "temp_f")).map
            (fun x => fToC (cellByName t.cols r x)) := by
        intro r hr
        have hlenr : (r.eraseIdx i).length = (t.cols.eraseIdx i).length := by
          rw [List.length_eraseIdx_of_lt hilt,
            List.length_eraseIdx_of_lt (by rw [hrect r hr]; exact hilt), hrect r hr]
        have hlook : ∀ x ∈ t.cols.eraseIdx i,
            cellByName (t.cols.eraseIdx i ++ [pyRstrip c ['_', 'f']])
              (r.eraseIdx i ++ [fToC (cell r i)]) x = cellByName t.cols r x := by
          intro x hx
          rw [cellByName_append_left _ _ _ _ _ hx hlenr]
          exact cellByName_eraseIdx t.cols r c x i hci
            (fun hh => not_mem_eraseIdx_self t.cols c i hndc hci (hh ▸ hx))
        have hlooks :
            cellByName (t.cols.eraseIdx i ++ [pyRstrip c ['_', 'f']])
              (r.eraseIdx i ++ [fToC (cell r i)]) (pyRstrip c ['_', 'f']) =
              fToC (cellByName t.cols r c) := by
          rw [cellByName_append_right _ _ _ _ _ hstripe hlenr, cellByName_cons_cons,
            if_pos rfl]
          congr 1
          unfold cellByName
          rw [hci]
        rw [hcolseq, List.map_append]
        have hchunk1 :
            ((t.cols.eraseIdx i).filter
                (fun x => !(strEndsWith x "temp_f" && cs.contains x))).map
              (cellByName (t.cols.eraseIdx i ++ [pyRstrip c ['_', 'f']])
                (r.eraseIdx i ++ [fToC (cell r i)])) =
            ((t.cols.eraseIdx i).filter
                (fun x => !(strEndsWith x "temp_f" && cs.contains x))).map
              (cellByName t.cols r) := by
          apply List.map_congr_left
          intro x hx
          exact hlook x (List.mem_of_mem_filter hx)
        have hchunk2 :
            ([pyRstrip c ['_', 'f']]).map
              (cellByName (t.cols.eraseIdx i ++ [pyRstrip c ['_', 'f']])
                (r.eraseIdx i ++ [fToC (cell r i)])) = [fToC (cellByName t.cols r c)] := by
          simp only [List.map_cons, List.map_nil, hlooks]
        have hchunk3 :
            (cs.filter (fun x => strEndsWith x "temp_f")).map
              (fun x => fToC (cellByName (t.cols.eraseIdx i ++ [pyRstrip c ['_', 'f']])
                (r.eraseIdx i ++ [fToC (cell r i)]) x)) =
            (cs.filter (fun x => strEndsWith x "temp_f")).map
              (fun x => fToC (cellByName t.cols r x)) := by
          apply List.map_congr_left
          intro x hx
          have hxcs : x ∈ cs := List.mem_of_mem_filter hx
          have hxtf : strEndsWith x "temp_f" = true := (List.mem_filter.mp hx).2
          have hxe : x ∈ t.cols.eraseIdx i :=
            mem_eraseIdx_of_ne t.cols c x i hci
              (hin x (List.mem_cons_of_mem c hxcs) hxtf)
              (fun hh => hcnotin (hh ▸ hxcs))
          rw [hlook x hxe]
        rw [hchunk1, hchunk2, hchunk3, hfilters, htfsplit, List.map_cons,
          List.append_assoc, List.singleton_append]
      show gddRenameLoop (c :: cs) t = _
      unfold gddRenameLoop
      rw [hstep]
      simp only [excOk_bind]
      rw [hIH]
      refine congrArg Except.ok ?_
      refine congrArg₂ DF.mk ?_ ?_
      · rw [hcolseq, hfilters, htfsplit, List.map_cons, List.append_assoc,
          List.singleton_append]
      · rw [List.map_map]
        apply List.map_congr_left
        intro r hr
        exact hroweq r hr
    · have htf2 : strEndsWith c "temp_f" = false := by
        cases h2 : strEndsWith c "temp_f" with
        | false => rfl
        | true => exact absurd h2 htf
      have hstep := gddRenameStep_not_tf t c htf2
      show gddRenameLoop (c :: cs) t = _
      unfold gddRenameLoop
      rw [hstep]
      simp only [excOk_bind]
      rw [gddRenameLoop_spec cs t hnd2 hndc hrect
        (fun x hx hxtf => hin x (List.mem_cons_of_mem c hx) hxtf)
        (fun x hx hxtf => hnost x (List.mem_cons_of_mem c hx) hxtf)]
      have hagree2 : ∀ x ∈ t.cols,
          (!(strEndsWith x "temp_f" && cs.contains x)) =
            (!(strEndsWith x "temp_f" && (c :: cs).contains x)) := by
        intro x _
        cases hx2 : strEndsWith x "temp_f" with
        | false => rfl
        | true =>
          have hxc : x ≠ c := fun hh => by
            rw [hh, htf2] at hx2
            exact Bool.false_ne_true hx2
          have hcon : ((c :: cs).contains x) = (cs.contains x) := by
            simp [List.contains_cons, hxc]
          rw [hcon]
      have hfeq : t.cols.filter (fun x => !(strEndsWith x "temp_f" && cs.contains x)) =
          t.cols.filter (fun x => !(strEndsWith x "temp_f" && (c :: cs).contains x)) :=
        List.filter_congr hagree2
      have htfsame : (c :: cs).filter (fun x => strEndsWith x "temp_f") =
          cs.filter (fun x => strEndsWith x "temp_f") := by
        simp [List.filter_cons, htf2]
      rw [hfeq, htfsame]

/-- C6 (amended): for a gdd input table with distinct column names, in
which no column ending in the wide-temperature suffix has its stripped
name already present as another column, and whose four gdd columns are
present after the renaming, gdd with grapes=False replaces every column
ending in the suffix by a column named with the trailing two characters
stripped and values (v - 32) * 5/9 (the replaced columns move to the
end of the column order), then drops exactly the rows with a missing
value in one of the four subset columns; all other columns and all
surviving rows are unchanged. -/
theorem gdd_renames_and_drops (env : GddEnv)
    (hndc : env.gddTable.cols.Nodup)
    (hrect : ∀ r ∈ env.gddTable.rows, r.length = env.gddTable.cols.length)
    (hnost : ∀ c ∈ env.gddTable.cols, strEndsWith c "temp_f" = true →
      pyRstrip c ['_', 'f'] ∉ env.gddTable.cols)
    (hsub : ∀ c ∈ gddSubset, c ∈ gddSpecCols env.gddTable.cols) :
    gdd env false = Except.ok
      ⟨gddSpecCols env.gddTable.cols,
        (env.gddTable.rows.map (gddSpecRow env.gddTable.cols)).filter
          (fun r => gddSubset.all
            (fun c => decide (cellByName (gddSpecCols env.gddTable.cols) r c ≠ Val.na)))⟩ := by
  have hloop := gddRenameLoop_spec env.gddTable.cols env.gddTable hndc hndc hrect
    (fun c hc _ => hc) hnost
  have hfeq : env.gddTable.cols.filter
        (fun x => !(strEndsWith x "temp_f" && env.gddTable.cols.contains x)) =
      env.gddTable.cols.filter (fun x => !(strEndsWith x "temp_f")) := by
    apply List.filter_congr
    intro x hx
    have hc : env.gddTable.cols.contains x = true := by simpa using hx
    rw [hc, Bool.and_true]
  rw [hfeq] at hloop
  have hall : (gddSubset.all
      (fun c => (colIdx (gddSpecCols env.gddTable.cols) c).isSome)) = true := by
    rw [List.all_eq_true]
    intro c hc
    exact colIdx_isSome_of_mem (hsub c hc)
  unfold gdd
  simp only [Bool.not_false, if_true]
  rw [hloop]
  simp only [excOk_bind]
  unfold dropnaSubset
  simp only [gddSpecCols] at hall
  simp only [gddSpecCols, gddSpecRow, hall, if_true]
  rfl

/-- C6 counterexample: the claim as stated, quantified over every input
table, fails.  On `gddCexEnv` the column `emergence_base_temp` does not
end in the suffix, so by the claim it should be returned unchanged; but
the loop assigns the converted `emergence_base_temp_f` values over it
(pandas column assignment overwrites an existing column), so its cell
changes from 99 to 10. -/
theorem gdd_claim_counterexample :
    strEndsWith "emergence_base_temp" "temp_f" = false ∧
    "emergence_base_temp" ∈ gddCexEnv.gddTable.cols ∧
    cellAt gddCexEnv.gddTable 0 "emergence_base_temp" = Val.int 99 ∧
    gdd gddCexEnv false = Except.ok
      ⟨["emergence_gdd", "maxcover_gdd", "maxcover_base_temp", "emergence_base_temp"],
       [[.int 5, .int 6, .int 50, fToC (.int 50)]]⟩ ∧
    cellAt ⟨["emergence_gdd", "maxcover_gdd", "maxcover_base_temp", "emergence_base_temp"],
       [[.int 5, .int 6, .int 50, fToC (.int 50)]]⟩ 0 "emergence_base_temp" ≠ Val.int 99 := by
  refine ⟨by decide, by decide, by decide, rfl, by decide⟩

/-- C6 witness: the amended theorem applies to `gddWitEnv` and the
result evaluates to its literal value (columns renamed and converted,
the row missing `emergence_gdd` dropped). -/
theorem gdd_renames_and_drops_witness :
    gddWitEnv.gddTable.cols.Nodup ∧
    gdd gddWitEnv false = Except.ok
      ⟨gddSpecCols gddWitEnv.gddTable.cols,
        (gddWitEnv.gddTable.rows.map (gddSpecRow gddWitEnv.gddTable.cols)).filter
          (fun r => gddSubset.all
            (fun c => decide (cellByName (gddSpecCols gddWitEnv.gddTable.cols) r c ≠ Val.na)))⟩ ∧
    gdd gddWitEnv false = Except.ok
      ⟨["emergence_gdd", "maxcover_gdd", "emergence_base_temp", "maxcover_base_temp"],
       [[.int 10, .int 20, fToC (.int 50), fToC (.int 41)]]⟩ :=
  ⟨by decide,
    gdd_renames_and_drops gddWitEnv (by decide) (by decide) (by decide) (by decide),
    rfl⟩

/-! ### C1: helper lemmas -/

/-- mapE of a pointwise-successful function. -/
theorem mapE_ok {α β : Type} (f : α → Except PyErr β) (g : α → β) :
    ∀ (l : List α), (∀ a ∈ l, f a = Except.ok (g a)) → mapE f l = Except.ok (l.map g)
  | [], _ => rfl
  | a :: rest, h => by
    unfold mapE
    rw [h a (List.mem_cons_self a rest),
      mapE_ok f g rest (fun x hx => h x (List.mem_cons_of_mem a hx))]
    rfl

/-- Zipping a list with a mapped copy of itself. -/
theorem zip_self_map {α β : Type} (g : α → β) :
    ∀ (l : List α), l.zip (l.map g) = l.map (fun a => (a, g a))
  | [] => rfl
  | x :: rest => by
    simp only [List.map_cons, List.zip_cons_cons]
    rw [zip_self_map g rest]

/-- Erasing at the first-occurrence index is `removeFirst`. -/
theorem eraseIdx_colIdx : ∀ (cols : List String) (c : String) (i : ℕ),
    colIdx cols c = some i → cols.eraseIdx i = removeFirst cols c
  | [], _, _, hci => by simp at hci
  | x :: xs, c, i, hci => by
    by_cases hxc : x = c
    · subst hxc
      rw [colIdx_cons_self] at hci
      cases hci
      rw [List.eraseIdx_cons_zero]
      unfold removeFirst
      rw [if_pos rfl]
    · rw [colIdx_cons_ne hxc] at hci
      cases hj : colIdx xs c with
      | none => rw [hj] at hci; simp at hci
      | some j =>
        rw [hj] at hci
        cases hci
        rw [List.eraseIdx_cons_succ]
        unfold removeFirst
        rw [if_neg hxc, eraseIdx_colIdx xs c j hj]

/-- removeFirst distributes over an append containing the name. -/
theorem removeFirst_append_left : ∀ (a b : List String) (c : String), c ∈ a →
    removeFirst (a ++ b) c = removeFirst a c ++ b
  | [], _, _, h => absurd h (by simp)
  | x :: xs, b, c, h => by
    rw [List.cons_append]
    by_cases hxc : x = c
    · unfold removeFirst
      rw [if_pos hxc, if_pos hxc]
    · unfold removeFirst
      rw [if_neg hxc, if_neg hxc,
        removeFirst_append_left xs b c (by
          rcases List.mem_cons.mp h with h2 | h2
          · exact absurd h2.symm hxc
          · exact h2),
        List.cons_append]

/-- removeFirst is a sublist. -/
theorem removeFirst_sublist : ∀ (l : List String) (c : String), List.Sublist (removeFirst l c) l
  | [], _ => List.Sublist.refl []
  | x :: xs, c => by
    unfold removeFirst
    by_cases hxc : x = c
    · rw [if_pos hxc]
      exact List.sublist_cons_self x xs
    · rw [if_neg hxc]
      exact List.Sublist.cons₂ x (removeFirst_sublist xs c)

/-- Expanded split width over uniformly-sized parts. -/
theorem splitWidth_const (n : ℕ) : ∀ (ps : List (Option (List String))), ps ≠ [] →
    (∀ p ∈ ps, ∃ l, p = some l ∧ l.length = n) → splitWidth ps = n
  | [], hne, _ => absurd rfl hne
  | p :: rest, _, h => by
    obtain ⟨l, hp, hl⟩ := h p (List.mem_cons_self p rest)
    subst hp
    unfold splitWidth
    rw [hl]
    cases rest with
    | nil => simp [splitWidth]
    | cons q qs =>
      rw [splitWidth_const n (q :: qs) (by simp)
        (fun q2 hq => h q2 (List.mem_cons_of_mem (some l) hq))]
      exact Nat.max_self n

/-- Padding an exact-width split is just the string cells. -/
theorem padParts_exact (n : ℕ) (l : List String) (h : l.length = n) :
    padParts n (some l) = l.map Val.str := by
  simp [padParts, h]

/-- Length of a flatMap with constant inner length. -/
theorem length_flatMap_const {α β : Type} (f : α → List β) (n : ℕ) :
    ∀ (l : List α), (∀ a ∈ l, (f a).length = n) → (l.flatMap f).length = l.length * n
  | [], _ => by simp
  | a :: rest, h => by
    rw [List.flatMap_cons, List.length_append, h a (List.mem_cons_self a rest),
      length_flatMap_const f n rest (fun x hx => h x (List.mem_cons_of_mem a hx)),
      List.length_cons, Nat.succ_mul, Nat.add_comm]

/-- Congruence for flatMap. -/
theorem flatMap_congr {α β : Type} (f g : α → List β) :
    ∀ (l : List α), (∀ a ∈ l, f a = g a) → l.flatMap f = l.flatMap g
  | [], _ => rfl
  | a :: rest, h => by
    rw [List.flatMap_cons, List.flatMap_cons, h a (List.mem_cons_self a rest),
      flatMap_congr f g rest (fun x hx => h x (List.mem_cons_of_mem a hx))]

/-- C1: for every well-formed non-preprocessed output file (distinct
column names, line_num and run_id among the id fields, rectangular
rows, integer line numbers, string run ids splitting into exactly
1 + len(pwc_run_id) parts, at least one row), pwc_outfile reconstructs
the header as pwc_id_fields ++ pwc_durations, decrements line_num by
one, splits run_id on the underscore into its id columns, and melts the
duration columns into long form: the result has the id columns followed
by `duration` and `conc`, and exactly one row per (input row, duration)
pair — (number of input rows) * (number of durations) rows in all. -/
theorem pwc_outfile_reshapes (env : PwcEnv)
    (hnodup : (("bunk" :: env.pwc_run_id) ++ env.pwc_id_fields ++ env.pwc_durations).Nodup)
    (hline : "line_num" ∈ env.pwc_id_fields)
    (hrun : "run_id" ∈ env.pwc_id_fields)
    (hrect : ∀ r ∈ env.rawRows, r.length = (env.pwc_id_fields ++ env.pwc_durations).length)
    (hlinev : ∀ r ∈ env.rawRows,
      ∃ z : ℤ, cellByName (env.pwc_id_fields ++ env.pwc_durations) r "line_num" = .int z)
    (hrunv : ∀ r ∈ env.rawRows,
      ∃ s : String, cellByName (env.pwc_id_fields ++ env.pwc_durations) r "run_id" = .str s ∧
        (pySplit s '_').length = 1 + env.pwc_run_id.length)
    (hne : env.rawRows ≠ []) :
    pwc_outfile env false = Except.ok
      ⟨pwcIdCols env ++ ["duration", "conc"],
       env.pwc_durations.flatMap (fun d => env.rawRows.map (pwcExpectedRow env d))⟩ ∧
    (env.pwc_durations.flatMap (fun d => env.rawRows.map (pwcExpectedRow env d))).length =
      env.rawRows.length * env.pwc_durations.length ∧
    "duration" ∈ pwcIdCols env ++ ["duration", "conc"] ∧
    "conc" ∈ pwcIdCols env ++ ["duration", "conc"] := by
  obtain ⟨li, hli⟩ := Option.isSome_iff_exists.mp (colIdx_isSome_of_mem
    (List.mem_append_left env.pwc_durations hline))
  obtain ⟨ri, hri⟩ := Option.isSome_iff_exists.mp (colIdx_isSome_of_mem
    (List.mem_append_left env.pwc_durations hrun))
  have hlr : li ≠ ri := colIdx_ne_of_name_ne hli hri (by decide)
  have hndh : (env.pwc_id_fields ++ env.pwc_durations).Nodup :=
    (List.Sublist.append (List.sublist_append_right _ _)
      (List.Sublist.refl env.pwc_durations)).nodup hnodup
  have hnd1 : (("bunk" :: env.pwc_run_id) ++ env.pwc_id_fields).Nodup :=
    (List.sublist_append_left _ _).nodup hnodup
  have hdisj1 : ∀ x ∈ ("bunk" :: env.pwc_run_id), x ∉ env.pwc_id_fields :=
    fun x hx => (List.nodup_append.mp hnd1).2.2 hx
  have hdisj2 : ∀ x ∈ ("bunk" :: env.pwc_run_id) ++ env.pwc_id_fields,
      x ∉ env.pwc_durations :=
    fun x hx => (List.nodup_append.mp hnodup).2.2 hx
  have hdisj3 : ∀ x ∈ env.pwc_id_fields, x ∉ env.pwc_durations :=
    fun x hx => (List.nodup_append.mp hndh).2.2 hx
  have hnn : ("bunk" :: env.pwc_run_id).Nodup :=
    (List.sublist_append_left _ _).nodup hnd1
  -- the run_id cell of a raw row, positionally
  have hcbrun : ∀ r : List Val,
      cellByName (env.pwc_id_fields ++ env.pwc_durations) r "run_id" = cell r ri := by
    intro r
    unfold cellByName
    rw [hri]
  have hcbline : ∀ r : List Val,
      cellByName (env.pwc_id_fields ++ env.pwc_durations) r "line_num" = cell r li := by
    intro r
    unfold cellByName
    rw [hli]
  -- step 1: the attribute read of line_num
  have hattr : getColAttr ⟨env.pwc_id_fields ++ env.pwc_durations, env.rawRows⟩ "line_num" =
      Except.ok (env.rawRows.map (fun r => cell r li)) := by
    unfold getColAttr
    simp only [hli]
  -- step 2: the decrement
  have hmap : mapE (fun v => do
        let w ← astypeI32 v
        pure (i32sub1 w)) (env.rawRows.map (fun r => cell r li)) =
      Except.ok ((env.rawRows.map (fun r => cell r li)).map decLineCell) := by
    apply mapE_ok
    intro v hv
    obtain ⟨r, hr, rfl⟩ := List.mem_map.mp hv
    obtain ⟨z, hz⟩ := hlinev r hr
    rw [hcbline r] at hz
    rw [hz]
    rfl
  -- step 3: writing the decremented column back in place
  have hset : setColList ⟨env.pwc_id_fields ++ env.pwc_durations, env.rawRows⟩ "line_num"
      ((env.rawRows.map (fun r => cell r li)).map decLineCell) =
      ⟨env.pwc_id_fields ++ env.pwc_durations,
       env.rawRows.map (fun r => r.set li (decLineCell (cell r li)))⟩ := by
    unfold setColList
    simp only [hli, List.map_map]
    rw [zip_self_map, List.map_map]
    rfl
  -- step 4: popping run_id
  have hpop : popColE ⟨env.pwc_id_fields ++ env.pwc_durations,
      env.rawRows.map (fun r => r.set li (decLineCell (cell r li)))⟩ "run_id" =
      Except.ok (env.rawRows.map (fun r => cell r ri),
        ⟨(env.pwc_id_fields ++ env.pwc_durations).eraseIdx ri,
         env.rawRows.map (fun r =>
          (r.set li (decLineCell (cell r li))).eraseIdx ri)⟩) := by
    unfold popColE
    simp only [hri, List.map_map]
    refine congrArg Except.ok (congrArg₂ Prod.mk ?_ rfl)
    apply List.map_congr_left
    intro r _
    exact cell_set_ne r li ri _ hlr
  -- step 5: the expanded width
  have hwidth : splitWidth ((env.rawRows.map (fun r => cell r ri)).map runIdParts) =
      1 + env.pwc_run_id.length := by
    apply splitWidth_const
    · intro hemp
      rw [List.map_eq_nil_iff, List.map_eq_nil_iff] at hemp
      exact hne hemp
    · intro p hp
      rw [List.map_map] at hp
      obtain ⟨r, hr, rfl⟩ := List.mem_map.mp hp
      obtain ⟨s, hs, hslen⟩ := hrunv r hr
      rw [hcbrun r] at hs
      refine ⟨pySplit s '_', ?_, hslen⟩
      show runIdParts (cell r ri) = _
      rw [hs]
      rfl
  have hguardw : ¬(1 + env.pwc_run_id.length ≠ ("bunk" :: env.pwc_run_id).length) := by
    rw [List.length_cons]
    omega
  -- step 6: the data/table reassembly rows
  have hrows3 :
      ((((env.rawRows.map (fun r => cell r ri)).map runIdParts).map
          (padParts (1 + env.pwc_run_id.length))).zip
        (env.rawRows.map (fun r =>
          (r.set li (decLineCell (cell r li))).eraseIdx ri))).map
        (fun p => p.1 ++ p.2) =
      env.rawRows.map (fun r =>
        padParts (1 + env.pwc_run_id.length) (runIdParts (cell r ri)) ++
          (r.set li (decLineCell (cell r li))).eraseIdx ri) := by
    rw [List.map_map, List.map_map, List.zip_map', List.map_map]
    rfl
  -- step 7: the id columns survive the duration filter
  have hidvars : ((("bunk" :: env.pwc_run_id) ++
        (env.pwc_id_fields ++ env.pwc_durations).eraseIdx ri).filter
      (fun f => !(env.pwc_durations.contains f))) = pwcIdCols env := by
    rw [eraseIdx_colIdx _ _ _ hri, removeFirst_append_left _ _ _ hrun,
      List.filter_append, List.filter_append]
    have h1 : ("bunk" :: env.pwc_run_id).filter
        (fun f => !(env.pwc_durations.contains f)) = "bunk" :: env.pwc_run_id := by
      apply List.filter_eq_self.mpr
      intro x hx
      have hnm : x ∉ env.pwc_durations := hdisj2 x (List.mem_append_left _ hx)
      simpa using hnm
    have h2 : (removeFirst env.pwc_id_fields "run_id").filter
        (fun f => !(env.pwc_durations.contains f)) =
        removeFirst env.pwc_id_fields "run_id" := by
      apply List.filter_eq_self.mpr
      intro x hx
      have hnm : x ∉ env.pwc_durations :=
        hdisj3 x ((removeFirst_sublist env.pwc_id_fields "run_id").subset hx)
      simpa using hnm
    have h3 : env.pwc_durations.filter (fun f => !(env.pwc_durations.contains f)) = [] := by
      rw [List.filter_eq_nil_iff]
      intro x hx
      simp [hx]
    rw [h1, h2, h3, List.append_nil]
    rfl
  -- step 8: the melt guard
  have hguard2 : ((pwcIdCols env ++ env.pwc_durations).all
      (fun c => (colIdx (("bunk" :: env.pwc_run_id) ++
        (env.pwc_id_fields ++ env.pwc_durations).eraseIdx ri) c).isSome)) = true := by
    rw [List.all_eq_true]
    intro c hc
    apply colIdx_isSome_of_mem
    rcases List.mem_append.mp hc with h | h
    · unfold pwcIdCols at h
      rcases List.mem_append.mp h with h2 | h2
      · exact List.mem_append_left _ h2
      · apply List.mem_append_right
        rw [eraseIdx_colIdx _ _ _ hri, removeFirst_append_left _ _ _ hrun]
        exact List.mem_append_left _ h2
    · apply List.mem_append_right
      rw [eraseIdx_colIdx _ _ _ hri, removeFirst_append_left _ _ _ hrun]
      exact List.mem_append_right _ h
  -- step 9: one melted output row per (duration, input row) pair
  have hrowkey : ∀ d ∈ env.pwc_durations, ∀ r ∈ env.rawRows,
      (pwcIdCols env).map (cellByName
          (("bunk" :: env.pwc_run_id) ++ (env.pwc_id_fields ++ env.pwc_durations).eraseIdx ri)
          (padParts (1 + env.pwc_run_id.length) (runIdParts (cell r ri)) ++
            (r.set li (decLineCell (cell r li))).eraseIdx ri)) ++
        [Val.str d, cellByName
          (("bunk" :: env.pwc_run_id) ++ (env.pwc_id_fields ++ env.pwc_durations).eraseIdx ri)
          (padParts (1 + env.pwc_run_id.length) (runIdParts (cell r ri)) ++
            (r.set li (decLineCell (cell r li))).eraseIdx ri) d] =
      pwcExpectedRow env d r := by
    intro d hd r hr
    obtain ⟨s, hs, hslen⟩ := hrunv r hr
    rw [hcbrun r] at hs
    have hrlen : r.length = (env.pwc_id_fields ++ env.pwc_durations).length := hrect r hr
    have hrilt : ri < (env.pwc_id_fields ++ env.pwc_durations).length := colIdx_lt_length hri
    have hlilt : li < (env.pwc_id_fields ++ env.pwc_durations).length := colIdx_lt_length hli
    have hsplitv : padParts (1 + env.pwc_run_id.length) (runIdParts (cell r ri)) =
        (pySplit s '_').map Val.str := by
      rw [hs]
      exact padParts_exact _ _ hslen
    have hlen1 : (padParts (1 + env.pwc_run_id.length) (runIdParts (cell r ri))).length =
        ("bunk" :: env.pwc_run_id).length := by
      rw [hsplitv, List.length_map, hslen, List.length_cons]
      omega
    have hlookup : ∀ x, x ∈ (env.pwc_id_fields ++ env.pwc_durations).eraseIdx ri →
        cellByName
          (("bunk" :: env.pwc_run_id) ++ (env.pwc_id_fields ++ env.pwc_durations).eraseIdx ri)
          (padParts (1 + env.pwc_run_id.length) (runIdParts (cell r ri)) ++
            (r.set li (decLineCell (cell r li))).eraseIdx ri) x =
        (if x = "line_num"
         then decLineCell (cellByName (env.pwc_id_fields ++ env.pwc_durations) r x)
         else cellByName (env.pwc_id_fields ++ env.pwc_durations) r x) := by
      intro x hx
      have hxh : x ∈ env.pwc_id_fields ++ env.pwc_durations :=
        (List.eraseIdx_sublist _ ri).subset hx
      have hxnn : x ∉ ("bunk" :: env.pwc_run_id) := by
        intro hxn
        rcases List.mem_append.mp hxh with h2 | h2
        · exact hdisj1 x hxn h2
        · exact hdisj2 x (List.mem_append_left _ hxn) h2
      have hxnr : x ≠ "run_id" :=
        fun hh => not_mem_eraseIdx_self _ _ _ hndh hri (hh ▸ hx)
      rw [cellByName_append_right _ _ _ _ _ hxnn hlen1,
        cellByName_eraseIdx _ _ _ _ _ hri hxnr]
      by_cases hxl : x = "line_num"
      · subst hxl
        rw [if_pos rfl, hcbline (r.set li (decLineCell (cell r li))), hcbline r]
        exact cell_set_self r li _ (by rw [hrlen]; exact hlilt)
      · rw [if_neg hxl]
        unfold cellByName
        cases hcx : colIdx (env.pwc_id_fields ++ env.pwc_durations) x with
        | none => rfl
        | some j =>
          exact cell_set_ne r li j _
            (colIdx_ne_of_name_ne hli hcx (fun hh => hxl hh.symm))
    have hfirst : (("bunk" :: env.pwc_run_id)).map (cellByName
          (("bunk" :: env.pwc_run_id) ++ (env.pwc_id_fields ++ env.pwc_durations).eraseIdx ri)
          (padParts (1 + env.pwc_run_id.length) (runIdParts (cell r ri)) ++
            (r.set li (decLineCell (cell r li))).eraseIdx ri)) =
        padParts (1 + env.pwc_run_id.length) (runIdParts (cell r ri)) := by
      have hpt : ∀ x ∈ ("bunk" :: env.pwc_run_id),
          cellByName
            (("bunk" :: env.pwc_run_id) ++ (env.pwc_id_fields ++ env.pwc_durations).eraseIdx ri)
            (padParts (1 + env.pwc_run_id.length) (runIdParts (cell r ri)) ++
              (r.set li (decLineCell (cell r li))).eraseIdx ri) x =
          cellByName ("bunk" :: env.pwc_run_id)
            (padParts (1 + env.pwc_run_id.length) (runIdParts (cell r ri))) x :=
        fun x hx => cellByName_append_left _ _ _ _ x hx hlen1
      rw [List.map_congr_left hpt]
      exact selfLookup _ _ hnn hlen1
    have hsecond : (removeFirst env.pwc_id_fields "run_id").map (cellByName
          (("bunk" :: env.pwc_run_id) ++ (env.pwc_id_fields ++ env.pwc_durations).eraseIdx ri)
          (padParts (1 + env.pwc_run_id.length) (runIdParts (cell r ri)) ++
            (r.set li (decLineCell (cell r li))).eraseIdx ri)) =
        (removeFirst env.pwc_id_fields "run_id").map (fun c =>
          if c = "line_num"
          then decLineCell (cellByName (env.pwc_id_fields ++ env.pwc_durations) r c)
          else cellByName (env.pwc_id_fields ++ env.pwc_durations) r c) := by
      apply List.map_congr_left
      intro x hx
      apply hlookup
      rw [eraseIdx_colIdx _ _ _ hri, removeFirst_append_left _ _ _ hrun]
      exact List.mem_append_left _ hx
    have hthird : cellByName
        (("bunk" :: env.pwc_run_id) ++ (env.pwc_id_fields ++ env.pwc_durations).eraseIdx ri)
        (padParts (1 + env.pwc_run_id.length) (runIdParts (cell r ri)) ++
          (r.set li (decLineCell (cell r li))).eraseIdx ri) d =
        cellByName (env.pwc_id_fields ++ env.pwc_durations) r d := by
      have hd2 : d ∈ (env.pwc_id_fields ++ env.pwc_durations).eraseIdx ri := by
        rw [eraseIdx_colIdx _ _ _ hri, removeFirst_append_left _ _ _ hrun]
        exact List.mem_append_right _ hd
      rw [hlookup d hd2,
        if_neg (fun hh : d = "line_num" => hdisj3 "line_num" hline (hh ▸ hd))]
    unfold pwcIdCols pwcExpectedRow
    rw [List.map_append, hfirst, hsecond, hthird, hcbrun r]
  refine ⟨?_, ?_, by simp, by simp⟩
  · unfold pwc_outfile
    simp only [Bool.not_false]
    rw [if_pos trivial, hattr]
    simp only [excOk_bind]
    rw [hmap]
    simp only [excOk_bind]
    rw [hset, hpop]
    simp only [excOk_bind]
    rw [hwidth, if_neg hguardw]
    unfold concatCols melt
    rw [hrows3, hidvars]
    rw [hguard2, if_pos rfl]
    refine congrArg Except.ok (congrArg₂ DF.mk rfl ?_)
    apply flatMap_congr
    intro d hd
    rw [List.map_map]
    apply List.map_congr_left
    intro r hr
    exact hrowkey d hd r hr
  · rw [Nat.mul_comm]
    apply length_flatMap_const
    intro d _
    exact List.length_map _ _

/-- C1 witness: the hypotheses hold of `pwcWitnessEnv`, the theorem
applies there, and the reshaped table evaluates to its literal value
(line 5 becomes 4, the run id splits into bunk/a/b, one row per
duration). -/
theorem pwc_outfile_reshapes_witness :
    (("bunk" :: pwcWitnessEnv.pwc_run_id) ++ pwcWitnessEnv.pwc_id_fields ++
      pwcWitnessEnv.pwc_durations).Nodup ∧
    pwcWitnessEnv.rawRows ≠ [] ∧
    (pwc_outfile pwcWitnessEnv false = Except.ok
      ⟨pwcIdCols pwcWitnessEnv ++ ["duration", "conc"],
       pwcWitnessEnv.pwc_durations.flatMap
         (fun d => pwcWitnessEnv.rawRows.map (pwcExpectedRow pwcWitnessEnv d))⟩ ∧
     (pwcWitnessEnv.pwc_durations.flatMap
         (fun d => pwcWitnessEnv.rawRows.map (pwcExpectedRow pwcWitnessEnv d))).length =
       pwcWitnessEnv.rawRows.length * pwcWitnessEnv.pwc_durations.length ∧
     "duration" ∈ pwcIdCols pwcWitnessEnv ++ ["duration", "conc"] ∧
     "conc" ∈ pwcIdCols pwcWitnessEnv ++ ["duration", "conc"]) ∧
    pwc_outfile pwcWitnessEnv false = Except.ok
      ⟨["bunk", "a", "b", "line_num", "extra", "duration", "conc"],
       [[.str "x", .str "y", .str "z", .int 4, .str "e", .str "d1", .int 7],
        [.str "x", .str "y", .str "z", .int 4, .str "e", .str "d2", .int 8]]⟩ :=
  ⟨by decide, by decide,
   pwc_outfile_reshapes pwcWitnessEnv (by decide) (by decide) (by decide) (by decide)
     (by
       intro r hr
       have hr2 : r ∈ [[Val.int 5, Val.str "x_y_z", Val.str "e", Val.int 7, Val.int 8]] := hr
       rw [List.mem_singleton] at hr2
       subst hr2
       exact ⟨5, rfl⟩)
     (by
       intro r hr
       have hr2 : r ∈ [[Val.int 5, Val.str "x_y_z", Val.str "e", Val.int 7, Val.int 8]] := hr
       rw [List.mem_singleton] at hr2
       subst hr2
       exact ⟨"x_y_z", rfl, by decide⟩)
     (by decide),
   by decide⟩

end ReadPy
